import Mathlib

/-!
Verification of the dependency-aware task planner and level-barrier parallel
executor of the NLP-and-Parallel-Computing-Framework repository.

The planner side embeds `TaskPlanner.build_dag` and
`TaskPlanner.topological_sort` from `task_planner.py`; the executor side embeds
`worker_execute_task`, `ParallelExecutor.execute_level`,
`ParallelExecutor.execute_plan` and the derived metrics of
`ParallelExecutor.print_performance_report` from `parallel_executor.py`.

Python dictionaries are modelled as association lists with insert-or-overwrite
update; mutable per-task in-degrees inside the topological sort are modelled as
a function `String → Int` updated pointwise (Python integers do not truncate at
zero); wall-clock durations, which the code samples with `time.time()`, are
supplied by oracle functions into `ℚ`; the tabular operation capability
(filter/group/aggregate on dataframes) is an explicit function parameter, as it
is outside the scheduler core.
-/

namespace NPF

/-- A task descriptor, as produced by the NLP processor / task planner: a task
id, an operation kind (`"filter"`, `"group"`, `"aggregate"`, `"fetch"`, ...),
the list of dependency ids, and the `level` field used by
`ParallelExecutor.execute_plan` (Python reads it with `task.get(level, 0)`). -/
structure Task where
  task_id : String
  operation : String
  depends_on : List String
  level : Nat
  deriving Repr, DecidableEq

/-- The dependency list of the task with a given id (empty for an id that is
not in the task list); mirrors a lookup into the `self.tasks` dict of
`TaskPlanner`. -/
def depsOf (tasks : List Task) (x : String) : List String :=
  ((tasks.find? (fun t => t.task_id = x)).map (fun t => t.depends_on)).getD []

/-- The list of task ids, in input (= Python dict insertion) order. -/
def taskIds (tasks : List Task) : List String :=
  tasks.map (fun t => t.task_id)

/-- Forward adjacency of `TaskPlanner.build_dag`: `buildDag tasks d` is the
list of dependents of id `d`, one occurrence per edge, in the order Python's
`for task_id, task in self.tasks.items(): for dependency in depends_on:
dag[dependency].append(task_id)` produces. -/
def buildDag (tasks : List Task) (d : String) : List String :=
  tasks.flatMap (fun t => (t.depends_on.filter (fun x => x = d)).map (fun _ => t.task_id))

/-- In-degrees after `TaskPlanner.build_dag`: the number of dependency entries
of the task with this id (0 for unknown ids, matching the defaultdict). -/
def inDegree0 (tasks : List Task) (x : String) : Int :=
  ((depsOf tasks x).length : Int)

/-- The initial ready queue of `TaskPlanner.topological_sort`: all task ids of
in-degree 0, in dict order. -/
def initialQueue (tasks : List Task) : List String :=
  (tasks.filter (fun t => t.depends_on.isEmpty)).map (fun t => t.task_id)

/-- One in-degree decrement of the inner loop of
`TaskPlanner.topological_sort`: `in_degree[dependent] -= 1`, and if the new
value is 0 the dependent is appended to the queue for the next layer. -/
def decStep (acc : (String → Int) × List String) (dep : String) :
    (String → Int) × List String :=
  let v := acc.1 dep - 1
  (fun x => if x = dep then v else acc.1 x, if v = 0 then acc.2 ++ [dep] else acc.2)

/-- Processing one full layer of `TaskPlanner.topological_sort`: every task id
popped from the current layer decrements each of its dependents once; the
second component collects the ids enqueued for the next layer. -/
def processLayer (dag : String → List String) (indeg : String → Int)
    (layer : List String) : (String → Int) × List String :=
  (layer.flatMap dag).foldl decStep (indeg, [])

/-- The `while queue:` loop of `TaskPlanner.topological_sort`.  At the start of
each iteration the queue holds exactly the ids enqueued during the previous
iteration, so the loop is layer-by-layer; the `fuel` argument only bounds the
iteration count (one layer consumed per unit) and is chosen large enough that
it never runs out. -/
def kahnRun (dag : String → List String) :
    Nat → (String → Int) → List String → List (List String)
  | 0, _, _ => []
  | _ + 1, _, [] => []
  | fuel + 1, indeg, frontier =>
      let s := processLayer dag indeg frontier
      frontier :: kahnRun dag fuel s.1 s.2

/-- The layers computed by `TaskPlanner.topological_sort` before its final
cycle check. -/
def rawLayers (tasks : List Task) : List (List String) :=
  kahnRun (buildDag tasks) (tasks.length + 1) (inDegree0 tasks) (initialQueue tasks)

/-- `len(visited)` at the end of `TaskPlanner.topological_sort`: the number of
distinct task ids placed into layers (`visited` is a Python set). -/
def visitedCount (tasks : List Task) : Nat :=
  ((rawLayers tasks).flatten.dedup).length

/-- `TaskPlanner.topological_sort`: the layered plan, or the
`"Cycle detected in task dependencies!"` `ValueError` when not every task was
placed.  This is the only error the planner can raise; there is no separate
unknown-dependency check anywhere in `task_planner.py`. -/
def topological_sort (tasks : List Task) : Except String (List (List String)) :=
  if visitedCount tasks = tasks.length then .ok (rawLayers tasks)
  else .error "Cycle detected in task dependencies!"

-- Sanity checks of the embedding on concrete plans.
example :
    topological_sort
      [⟨"T1", "filter", [], 0⟩, ⟨"T2", "group", ["T1"], 0⟩,
       ⟨"T3", "aggregate", ["T2"], 0⟩] = .ok [["T1"], ["T2"], ["T3"]] := rfl

example :
    topological_sort
      [⟨"T1", "filter", [], 0⟩, ⟨"T2", "filter", [], 0⟩,
       ⟨"T3", "group", ["T1", "T2"], 0⟩] = .ok [["T1", "T2"], ["T3"]] := rfl

example :
    topological_sort [⟨"T1", "filter", ["T2"], 0⟩, ⟨"T2", "group", ["T1"], 0⟩]
      = .error "Cycle detected in task dependencies!" := rfl

example :
    topological_sort [⟨"T1", "filter", ["TX"], 0⟩]
      = .error "Cycle detected in task dependencies!" := rfl

/-! ### Counting lemmas for the topological sort -/

theorem count_map_const (l : List String) (c x : String) :
    List.count x (l.map (fun _ => c)) = if x = c then l.length else 0 := by
  induction l with
  | nil => simp
  | cons e l ih =>
      rw [List.map_cons, List.count_cons, ih]
      by_cases h : x = c
      · simp [h]
      · have hcx : (c == x) = false := by
          simp only [beq_eq_false_iff_ne, ne_eq]
          exact fun he => h he.symm
        simp [h, hcx]

theorem length_filter_eq_count (l : List String) (d : String) :
    (l.filter (fun y => y = d)).length = List.count d l := by
  induction l with
  | nil => simp
  | cons e l ih =>
      by_cases h : e = d
      · subst h; simp [List.count_cons, ih]
      · simp [List.filter_cons, h, List.count_cons, ih, beq_iff_eq]

theorem mem_buildDag (tasks : List Task) (d y : String)
    (h : y ∈ buildDag tasks d) : y ∈ taskIds tasks := by
  simp only [buildDag, List.mem_flatMap, List.mem_map] at h
  obtain ⟨t, ht, _, _, rfl⟩ := h
  exact List.mem_map_of_mem _ ht

theorem count_buildDag_of_not_mem (tasks : List Task) (d x : String)
    (h : x ∉ taskIds tasks) : List.count x (buildDag tasks d) = 0 := by
  rw [List.count_eq_zero]
  intro hx
  exact h (mem_buildDag tasks d x hx)

theorem depsOf_eq (tasks : List Task) (hnd : (taskIds tasks).Nodup)
    (t : Task) (ht : t ∈ tasks) : depsOf tasks t.task_id = t.depends_on := by
  induction tasks with
  | nil => cases ht
  | cons u ts ih =>
      rcases List.mem_cons.mp ht with h | h
      · subst h
        simp [depsOf, List.find?]
      · have hne : u.task_id ≠ t.task_id := by
          intro he
          have : t.task_id ∈ taskIds ts := List.mem_map_of_mem _ h
          rw [taskIds, List.map_cons, List.nodup_cons] at hnd
          exact hnd.1 (he ▸ this)
        have hnd' : (taskIds ts).Nodup := by
          rw [taskIds, List.map_cons, List.nodup_cons] at hnd
          exact hnd.2
        simp only [depsOf, List.find?]
        rw [show (decide (u.task_id = t.task_id)) = false by simp [hne]]
        exact ih hnd' h

theorem depsOf_of_not_mem (tasks : List Task) (x : String)
    (h : x ∉ taskIds tasks) : depsOf tasks x = [] := by
  have hfind : tasks.find? (fun t => decide (t.task_id = x)) = none := by
    rw [List.find?_eq_none]
    intro t ht
    simp only [decide_eq_true_eq]
    intro he
    exact h (he ▸ List.mem_map_of_mem _ ht)
  simp [depsOf, hfind]

theorem count_buildDag (tasks : List Task) (hnd : (taskIds tasks).Nodup)
    (d x : String) :
    List.count x (buildDag tasks d) = List.count d (depsOf tasks x) := by
  induction tasks with
  | nil => simp [buildDag, depsOf]
  | cons t ts ih =>
      have hnd' : (taskIds ts).Nodup := by
        rw [taskIds, List.map_cons, List.nodup_cons] at hnd
        exact hnd.2
      have hcount : List.count x (buildDag (t :: ts) d) =
          (if x = t.task_id then List.count d t.depends_on else 0) +
            List.count x (buildDag ts d) := by
        simp only [buildDag, List.flatMap_cons, List.count_append]
        rw [count_map_const, length_filter_eq_count]
      by_cases hx : x = t.task_id
      · have hxd : depsOf (t :: ts) x = t.depends_on := by
          rw [hx]
          exact depsOf_eq (t :: ts) hnd t (List.mem_cons_self t ts)
        have hnm : x ∉ taskIds ts := by
          rw [taskIds, List.map_cons, List.nodup_cons] at hnd
          rw [hx]
          exact hnd.1
        rw [hcount, hxd, count_buildDag_of_not_mem ts d x hnm]
        simp [hx]
      · have hxd : depsOf (t :: ts) x = depsOf ts x := by
          simp only [depsOf, List.find?]
          rw [show (decide (t.task_id = x)) = false by simp [Ne.symm hx]]
        rw [hcount, hxd, ih hnd']
        simp [hx]

theorem countP_mem_nil (l : List String) :
    l.countP (fun d => decide (d ∈ ([] : List String))) = 0 := by
  induction l with
  | nil => simp
  | cons e l ih => simp [List.countP_cons, ih]

theorem countP_mem_cons (l : List String) (f : String) (F : List String)
    (hf : f ∉ F) :
    l.countP (fun d => decide (d ∈ f :: F)) =
      List.count f l + l.countP (fun d => decide (d ∈ F)) := by
  induction l with
  | nil => simp
  | cons e l ih =>
      simp only [List.mem_cons] at ih ⊢
      rw [List.countP_cons, List.countP_cons, List.count_cons, ih]
      by_cases h : e = f
      · subst h
        simp [hf] <;> omega
      · by_cases h2 : e ∈ F <;> simp [h, h2, beq_iff_eq] <;> omega

theorem count_flatMap_dag (tasks : List Task) (hnd : (taskIds tasks).Nodup)
    (F : List String) (hF : F.Nodup) (x : String) :
    List.count x (F.flatMap (buildDag tasks)) =
      (depsOf tasks x).countP (fun d => decide (d ∈ F)) := by
  induction F with
  | nil => simp [countP_mem_nil]
  | cons f F ih =>
      rw [List.nodup_cons] at hF
      rw [List.flatMap_cons, List.count_append, count_buildDag tasks hnd f x,
        ih hF.2, countP_mem_cons _ _ _ hF.1]

theorem countP_split (l : List String) (p q : String → Bool)
    (h : ∀ e ∈ l, q e = true → p e = true) :
    l.countP p = l.countP q + l.countP (fun e => p e && !q e) := by
  induction l with
  | nil => simp
  | cons e l ih =>
      rw [List.countP_cons, List.countP_cons, List.countP_cons,
        ih (fun e he => h e (List.mem_cons_of_mem _ he))]
      have he := h e (List.mem_cons_self e l)
      cases hq : q e
      · cases hp : p e <;> simp [hp, hq] <;> omega
      · rw [he hq]
        simp [hq]
        omega

/-! ### Characterization of the in-degree decrement loop -/

theorem foldl_decStep_fst (D : List String) :
    ∀ (g : String → Int) (acc : List String) (x : String),
      ((D.foldl decStep (g, acc)).1) x = g x - (List.count x D : Int) := by
  induction D with
  | nil =>
      intro g acc x
      simp
  | cons d D ih =>
      intro g acc x
      rw [List.foldl_cons,
        show decStep (g, acc) d = (fun y => if y = d then g d - 1 else g y,
          if g d - 1 = 0 then acc ++ [d] else acc) from rfl, ih]
      by_cases h : x = d
      · subst h
        rw [List.count_cons]
        simp
        omega
      · have hdx : (d == x) = false := by
          simp only [beq_eq_false_iff_ne, ne_eq]
          exact fun he => h he.symm
        rw [List.count_cons, hdx]
        simp [h]

theorem foldl_decStep_snd_count (D : List String) :
    ∀ (g : String → Int) (acc : List String) (x : String),
      List.count x (D.foldl decStep (g, acc)).2 =
        List.count x acc +
          (if 1 ≤ g x ∧ g x ≤ (List.count x D : Int) then 1 else 0) := by
  induction D with
  | nil =>
      intro g acc x
      simp only [List.foldl_nil, List.count_nil, Nat.cast_zero]
      split_ifs with h <;> omega
  | cons d D ih =>
      intro g acc x
      rw [List.foldl_cons,
        show decStep (g, acc) d = (fun y => if y = d then g d - 1 else g y,
          if g d - 1 = 0 then acc ++ [d] else acc) from rfl, ih]
      by_cases h : x = d
      · subst h
        have hacc : List.count x (if g x - 1 = 0 then acc ++ [x] else acc) =
            List.count x acc + (if g x - 1 = 0 then 1 else 0) := by
          by_cases hz : g x - 1 = 0 <;> simp [hz]
        rw [hacc, List.count_cons]
        simp only [if_pos rfl, beq_self_eq_true, if_true]
        push_cast
        split_ifs <;> omega
      · have hdx : (d == x) = false := by
          simp only [beq_eq_false_iff_ne, ne_eq]
          exact fun he => h he.symm
        have hacc : List.count x (if g d - 1 = 0 then acc ++ [d] else acc) =
            List.count x acc := by
          by_cases hz : g d - 1 = 0 <;> simp [hz, List.count_singleton, hdx]
        rw [hacc, List.count_cons, hdx]
        simp [h]

theorem processLayer_fst (dag : String → List String) (indeg : String → Int)
    (L : List String) (x : String) :
    ((processLayer dag indeg L).1) x =
      indeg x - (List.count x (L.flatMap dag) : Int) :=
  foldl_decStep_fst _ _ _ _

theorem processLayer_snd_count (dag : String → List String)
    (indeg : String → Int) (L : List String) (x : String) :
    List.count x (processLayer dag indeg L).2 =
      if 1 ≤ indeg x ∧ indeg x ≤ (List.count x (L.flatMap dag) : Int)
      then 1 else 0 := by
  have h := foldl_decStep_snd_count (L.flatMap dag) indeg [] x
  simpa [processLayer] using h

/-! ### The loop invariant of `TaskPlanner.topological_sort`

At the boundary of each `while queue:` iteration, `LS` is the list of layers
already emitted, `indeg` the current in-degree table and `F` the queue contents
(exactly the ids enqueued during the previous iteration). -/

def LayersInv (tasks : List Task) (LS : List (List String))
    (indeg : String → Int) (F : List String) : Prop :=
  (LS.flatten ++ F).Nodup ∧
  (∀ x ∈ LS.flatten ++ F, x ∈ taskIds tasks) ∧
  (∀ x, indeg x =
    ((depsOf tasks x).countP (fun d => decide (d ∉ LS.flatten)) : Int)) ∧
  (∀ x ∈ taskIds tasks, x ∉ LS.flatten →
    (x ∈ F ↔ ∀ d ∈ depsOf tasks x, d ∈ LS.flatten)) ∧
  (∀ (k : Nat) (hk : k < LS.length), ∀ x ∈ LS[k],
    ∀ d ∈ depsOf tasks x, d ∈ (LS.take k).flatten)

theorem flatten_take_subset (LS : List (List String)) (k : Nat) :
    ((LS.take k).flatten : List String) ⊆ LS.flatten := by
  intro d hd
  rw [List.mem_flatten] at hd ⊢
  obtain ⟨l, hl, hdl⟩ := hd
  exact ⟨l, List.mem_of_mem_take hl, hdl⟩

theorem deps_subset_flatten (tasks : List Task) (LS : List (List String))
    (he : ∀ (k : Nat) (hk : k < LS.length), ∀ x ∈ LS[k],
      ∀ d ∈ depsOf tasks x, d ∈ (LS.take k).flatten)
    (x : String) (hx : x ∈ LS.flatten) :
    ∀ d ∈ depsOf tasks x, d ∈ LS.flatten := by
  rw [List.mem_flatten] at hx
  obtain ⟨l, hl, hxl⟩ := hx
  obtain ⟨⟨k, hk⟩, hget⟩ := List.mem_iff_get.mp hl
  intro d hd
  have hxk : x ∈ LS[k] := by
    rw [List.get_eq_getElem] at hget
    rw [hget]
    exact hxl
  exact flatten_take_subset LS k (he k hk x hxk d hd)

theorem mem_taskIds_of_depsOf_ne (tasks : List Task) (x : String)
    (h : depsOf tasks x ≠ []) : x ∈ taskIds tasks := by
  by_contra hx
  exact h (depsOf_of_not_mem tasks x hx)

theorem layersInv_step (tasks : List Task) (hnd : (taskIds tasks).Nodup)
    (LS : List (List String)) (indeg : String → Int) (F : List String)
    (hinv : LayersInv tasks LS indeg F) :
    LayersInv tasks (LS ++ [F]) (processLayer (buildDag tasks) indeg F).1
      (processLayer (buildDag tasks) indeg F).2 := by
  obtain ⟨ha, hb, hc, hd, he⟩ := hinv
  have hPnd : LS.flatten.Nodup := (List.nodup_append.mp ha).1
  have hFnd : F.Nodup := (List.nodup_append.mp ha).2.1
  have hdisj : LS.flatten.Disjoint F := (List.nodup_append.mp ha).2.2
  have hcnt : ∀ x, List.count x (F.flatMap (buildDag tasks)) =
      (depsOf tasks x).countP (fun d => decide (d ∈ F)) :=
    fun x => count_flatMap_dag tasks hnd F hFnd x
  have hflat : (LS ++ [F]).flatten = LS.flatten ++ F := by simp
  have hsplit : ∀ x, (depsOf tasks x).countP (fun d => decide (d ∉ LS.flatten)) =
      (depsOf tasks x).countP (fun d => decide (d ∈ F)) +
        (depsOf tasks x).countP (fun d => decide (d ∉ LS.flatten ++ F)) := by
    intro x
    have h1 := countP_split (depsOf tasks x)
      (fun d => decide (d ∉ LS.flatten)) (fun d => decide (d ∈ F))
      (by
        intro e _ hq
        simp only [decide_eq_true_eq] at hq ⊢
        exact fun hP => hdisj hP hq)
    rw [h1]
    congr 1
    apply List.countP_congr
    intro e _
    simp only [Bool.and_eq_true, Bool.not_eq_true', decide_eq_true_eq,
      decide_eq_false_iff_not, List.mem_append]
    tauto
  -- the deps of already-placed tasks are themselves already placed
  have hdepsP : ∀ x ∈ LS.flatten, ∀ d ∈ depsOf tasks x, d ∈ LS.flatten :=
    deps_subset_flatten tasks LS he
  -- countP (· ∈ F) of the deps vanishes for placed and queued ids
  have hbzero : ∀ x ∈ LS.flatten ++ F,
      (depsOf tasks x).countP (fun d => decide (d ∈ F)) = 0 := by
    intro x hx
    rw [List.countP_eq_zero]
    intro d hdm
    simp only [decide_eq_true_eq]
    rcases List.mem_append.mp hx with hxP | hxF
    · exact fun hdF => hdisj (hdepsP x hxP d hdm) hdF
    · have hxP : x ∉ LS.flatten := fun hxP => hdisj hxP hxF
      have hdeps := (hd x (hb x hx) hxP).mp hxF
      exact fun hdF => hdisj (hdeps d hdm) hdF
  -- membership in the next frontier
  have hcount' : ∀ x, List.count x (processLayer (buildDag tasks) indeg F).2 =
      if ((depsOf tasks x).countP (fun d => decide (d ∉ LS.flatten ++ F)) = 0 ∧
          1 ≤ (depsOf tasks x).countP (fun d => decide (d ∈ F)))
      then 1 else 0 := by
    intro x
    rw [processLayer_snd_count, hc x, hcnt x]
    have hsp := hsplit x
    by_cases hcond :
        ((depsOf tasks x).countP (fun d => decide (d ∉ LS.flatten ++ F)) = 0 ∧
          1 ≤ (depsOf tasks x).countP (fun d => decide (d ∈ F)))
    · rw [if_pos hcond, if_pos (by omega)]
    · rw [if_neg hcond, if_neg (by omega)]
  have hmemF' : ∀ x, x ∈ (processLayer (buildDag tasks) indeg F).2 ↔
      ((depsOf tasks x).countP (fun d => decide (d ∉ LS.flatten ++ F)) = 0 ∧
        1 ≤ (depsOf tasks x).countP (fun d => decide (d ∈ F))) := by
    intro x
    constructor
    · intro hx
      have hpos : 0 < List.count x (processLayer (buildDag tasks) indeg F).2 :=
        List.count_pos_iff.mpr hx
      rw [hcount' x] at hpos
      by_cases hcond :
          ((depsOf tasks x).countP (fun d => decide (d ∉ LS.flatten ++ F)) = 0 ∧
            1 ≤ (depsOf tasks x).countP (fun d => decide (d ∈ F)))
      · exact hcond
      · rw [if_neg hcond] at hpos
        omega
    · intro hcond
      rw [← List.count_pos_iff, hcount' x, if_pos hcond]
      omega
  have hdisj' : (LS.flatten ++ F).Disjoint
      (processLayer (buildDag tasks) indeg F).2 := by
    intro x hx hx'
    have := ((hmemF' x).mp hx').2
    rw [hbzero x hx] at this
    omega
  refine ⟨?_, ?_, ?_, ?_, ?_⟩
  · -- Nodup
    rw [hflat, List.nodup_append]
    refine ⟨ha, ?_, hdisj'⟩
    rw [List.nodup_iff_count_le_one]
    intro x
    rw [hcount' x]
    split_ifs <;> omega
  · -- membership in taskIds
    intro x hx
    rw [hflat] at hx
    rcases List.mem_append.mp hx with hx | hx
    · exact hb x hx
    · have hple := ((hmemF' x).mp hx).2
      apply mem_taskIds_of_depsOf_ne
      intro hnil
      rw [hnil] at hple
      simp at hple
  · -- new in-degree
    intro x
    rw [processLayer_fst, hc x, hcnt x]
    have hsp := hsplit x
    rw [hflat]
    omega
  · -- frontier characterization
    intro x hxids hxP'
    rw [hflat] at hxP' ⊢
    rw [hmemF' x]
    constructor
    · intro ⟨hczero, _⟩ d hdm
      have h2 := List.countP_eq_zero.mp hczero d hdm
      simp only [decide_eq_true_eq, Decidable.not_not] at h2
      exact h2
    · intro hdeps
      constructor
      · rw [List.countP_eq_zero]
        intro d hdm
        simp only [decide_eq_true_eq, Decidable.not_not]
        exact hdeps d hdm
      · by_contra hble
        have hbz : (depsOf tasks x).countP (fun d => decide (d ∈ F)) = 0 := by
          omega
        have hallP : ∀ d ∈ depsOf tasks x, d ∈ LS.flatten := by
          intro d hdm
          have hnF := List.countP_eq_zero.mp hbz d hdm
          simp only [decide_eq_true_eq] at hnF
          rcases List.mem_append.mp (hdeps d hdm) with h | h
          · exact h
          · exact absurd h hnF
        have hxP : x ∉ LS.flatten := fun hxP =>
          hxP' (List.mem_append.mpr (Or.inl hxP))
        have hxF := (hd x hxids hxP).mpr hallP
        exact hxP' (List.mem_append.mpr (Or.inr hxF))
  · -- layered dependencies
    intro k hk x hx d hdm
    rw [List.length_append, List.length_singleton] at hk
    by_cases hklt : k < LS.length
    · have hx' : x ∈ LS[k] := by
        rw [List.getElem_append_left hklt] at hx
        exact hx
      rw [List.take_append_of_le_length (Nat.le_of_lt hklt)]
      exact he k hklt x hx' d hdm
    · have hkeq : k = LS.length := by omega
      subst hkeq
      have hx' : x ∈ F := by
        rw [List.getElem_append_right (Nat.le_refl _)] at hx
        simpa using hx
      have hxP : x ∉ LS.flatten := fun hxP => hdisj hxP hx'
      have hdeps := (hd x (hb x (List.mem_append.mpr (Or.inr hx'))) hxP).mp hx'
      rw [List.take_append_of_le_length (Nat.le_refl _), List.take_length]
      exact hdeps d hdm

theorem countP_not_mem_nil (l : List String) :
    l.countP (fun d => decide (d ∉ ([] : List String))) = l.length := by
  induction l with
  | nil => simp
  | cons e l ih => simp [List.countP_cons, ih]

theorem mem_initialQueue (tasks : List Task) (hnd : (taskIds tasks).Nodup)
    (x : String) :
    x ∈ initialQueue tasks ↔ x ∈ taskIds tasks ∧ depsOf tasks x = [] := by
  constructor
  · intro hx
    simp only [initialQueue, List.mem_map, List.mem_filter] at hx
    obtain ⟨t, ⟨ht, hemp⟩, rfl⟩ := hx
    rw [List.isEmpty_iff] at hemp
    exact ⟨List.mem_map_of_mem _ ht, by rw [depsOf_eq tasks hnd t ht, hemp]⟩
  · intro ⟨hids, hdeps⟩
    simp only [taskIds, List.mem_map] at hids
    obtain ⟨t, ht, rfl⟩ := hids
    rw [depsOf_eq tasks hnd t ht] at hdeps
    simp only [initialQueue, List.mem_map, List.mem_filter]
    exact ⟨t, ⟨ht, by rw [hdeps]; rfl⟩, rfl⟩

theorem layersInv_init (tasks : List Task) (hnd : (taskIds tasks).Nodup) :
    LayersInv tasks [] (inDegree0 tasks) (initialQueue tasks) := by
  refine ⟨?_, ?_, ?_, ?_, ?_⟩
  · simp only [List.flatten_nil, List.nil_append]
    have hsub : (initialQueue tasks).Sublist (taskIds tasks) := by
      unfold initialQueue taskIds
      exact (List.filter_sublist tasks).map (fun t => t.task_id)
    exact hsub.nodup hnd
  · intro x hx
    simp only [List.flatten_nil, List.nil_append] at hx
    exact ((mem_initialQueue tasks hnd x).mp hx).1
  · intro x
    simp only [List.flatten_nil, inDegree0]
    rw [countP_not_mem_nil]
  · intro x hxids _
    simp only [List.flatten_nil]
    rw [mem_initialQueue tasks hnd x]
    constructor
    · intro ⟨_, hdeps⟩ d hdm
      rw [hdeps] at hdm
      cases hdm
    · intro hdeps
      refine ⟨hxids, ?_⟩
      cases hdm : depsOf tasks x with
      | nil => rfl
      | cons d ds =>
          have := hdeps d (by rw [hdm]; exact List.mem_cons_self d ds)
          cases this
  · intro k hk
    simp at hk

def FinalLayers (tasks : List Task) (LS : List (List String)) : Prop :=
  LS.flatten.Nodup ∧
  (∀ x ∈ LS.flatten, x ∈ taskIds tasks) ∧
  (∀ (k : Nat) (hk : k < LS.length), ∀ x ∈ LS[k],
    ∀ d ∈ depsOf tasks x, d ∈ (LS.take k).flatten) ∧
  (∀ x ∈ taskIds tasks, x ∉ LS.flatten →
    ¬ (∀ d ∈ depsOf tasks x, d ∈ LS.flatten))

theorem nodup_subset_length_le (l m : List String) (hl : l.Nodup)
    (hsub : ∀ x ∈ l, x ∈ m) : l.length ≤ m.length := by
  have h1 : l.toFinset.card = l.length := List.toFinset_card_of_nodup hl
  have h2 : l.toFinset ⊆ m.toFinset := by
    intro x hx
    rw [List.mem_toFinset] at hx ⊢
    exact hsub x hx
  have h3 := Finset.card_le_card h2
  have h4 := List.toFinset_card_le m
  omega

theorem kahnRun_final (tasks : List Task) (hnd : (taskIds tasks).Nodup) :
    ∀ (fuel : Nat) (LS : List (List String)) (indeg : String → Int)
      (F : List String),
      LayersInv tasks LS indeg F →
      tasks.length + 1 ≤ fuel + LS.flatten.length →
      FinalLayers tasks (LS ++ kahnRun (buildDag tasks) fuel indeg F) := by
  intro fuel
  induction fuel with
  | zero =>
      intro LS indeg F hinv hfuel
      exfalso
      have h1 : LS.flatten.Nodup := (List.nodup_append.mp hinv.1).1
      have h2 : ∀ x ∈ LS.flatten, x ∈ taskIds tasks := fun x hx =>
        hinv.2.1 x (List.mem_append.mpr (Or.inl hx))
      have hle := nodup_subset_length_le _ _ h1 h2
      rw [taskIds, List.length_map] at hle
      omega
  | succ fuel ih =>
      intro LS indeg F hinv hfuel
      cases F with
      | nil =>
          rw [show kahnRun (buildDag tasks) (fuel + 1) indeg [] = [] from rfl,
            List.append_nil]
          obtain ⟨ha, hb, _, hd, he⟩ := hinv
          refine ⟨by simpa using ha, ?_, he, ?_⟩
          · intro x hx
            exact hb x (List.mem_append.mpr (Or.inl hx))
          · intro x hxids hxP hdeps
            have hmem := (hd x hxids hxP).mpr hdeps
            cases hmem
      | cons f fs =>
          have hstep := layersInv_step tasks hnd LS indeg (f :: fs) hinv
          have hrun : kahnRun (buildDag tasks) (fuel + 1) indeg (f :: fs) =
              (f :: fs) ::
                kahnRun (buildDag tasks) fuel
                  (processLayer (buildDag tasks) indeg (f :: fs)).1
                  (processLayer (buildDag tasks) indeg (f :: fs)).2 := rfl
          rw [hrun,
            show LS ++ ((f :: fs) ::
                kahnRun (buildDag tasks) fuel
                  (processLayer (buildDag tasks) indeg (f :: fs)).1
                  (processLayer (buildDag tasks) indeg (f :: fs)).2) =
              (LS ++ [f :: fs]) ++
                kahnRun (buildDag tasks) fuel
                  (processLayer (buildDag tasks) indeg (f :: fs)).1
                  (processLayer (buildDag tasks) indeg (f :: fs)).2 by simp]
          apply ih _ _ _ hstep
          rw [List.flatten_append]
          simp only [List.flatten_cons, List.flatten_nil, List.append_nil,
            List.length_append, List.length_cons]
          omega

theorem rawLayers_final (tasks : List Task) (hnd : (taskIds tasks).Nodup) :
    FinalLayers tasks (rawLayers tasks) := by
  have h := kahnRun_final tasks hnd (tasks.length + 1) [] (inDegree0 tasks)
    (initialQueue tasks) (layersInv_init tasks hnd) (by simp)
  simpa [rawLayers] using h

theorem visitedCount_eq_flatten_length (tasks : List Task)
    (hnd : (taskIds tasks).Nodup) :
    visitedCount tasks = (rawLayers tasks).flatten.length := by
  rw [visitedCount, List.Nodup.dedup (rawLayers_final tasks hnd).1]

theorem visitedCount_le (tasks : List Task) (hnd : (taskIds tasks).Nodup) :
    visitedCount tasks ≤ tasks.length := by
  rw [visitedCount_eq_flatten_length tasks hnd]
  have h := nodup_subset_length_le _ _ (rawLayers_final tasks hnd).1
    (rawLayers_final tasks hnd).2.1
  rw [taskIds, List.length_map] at h
  exact h

theorem topological_sort_ok_elim (tasks : List Task)
    (layers : List (List String))
    (h : topological_sort tasks = .ok layers) :
    layers = rawLayers tasks ∧ visitedCount tasks = tasks.length := by
  by_cases hc : visitedCount tasks = tasks.length
  · rw [topological_sort, if_pos hc] at h
    cases h
    exact ⟨rfl, hc⟩
  · rw [topological_sort, if_neg hc] at h
    cases h

theorem flatten_perm_taskIds (tasks : List Task)
    (hnd : (taskIds tasks).Nodup)
    (hvc : visitedCount tasks = tasks.length) :
    (rawLayers tasks).flatten.Perm (taskIds tasks) := by
  obtain ⟨h1, h2, _, _⟩ := rawLayers_final tasks hnd
  have hflen : (rawLayers tasks).flatten.length = (taskIds tasks).length := by
    rw [← visitedCount_eq_flatten_length tasks hnd, taskIds, List.length_map, hvc]
  have hfs : (rawLayers tasks).flatten.toFinset ⊆ (taskIds tasks).toFinset := by
    intro x hx
    rw [List.mem_toFinset] at hx ⊢
    exact h2 x hx
  have hcard : (taskIds tasks).toFinset.card ≤
      (rawLayers tasks).flatten.toFinset.card := by
    rw [List.toFinset_card_of_nodup h1, List.toFinset_card_of_nodup hnd, hflen]
  exact List.perm_of_nodup_nodup_toFinset_eq h1 hnd
    (Finset.eq_of_subset_of_card_le hfs hcard)

/-- A directed cycle in the declared dependency graph: a nonempty list of ids
each of which depends on the next one, cyclically (e.g. `["T1", "T2"]` when T1
depends on T2 and T2 depends on T1). -/
def HasDepCycle (tasks : List Task) : Prop :=
  ∃ c : List String, c ≠ [] ∧
    ∀ i : Fin c.length,
      c.get ⟨(i.1 + 1) % c.length, Nat.mod_lt _ i.pos⟩ ∈ depsOf tasks (c.get i)

theorem cycle_elem_not_placed (tasks : List Task)
    (hnd : (taskIds tasks).Nodup) (c : List String)
    (hcyc : ∀ i : Fin c.length,
      c.get ⟨(i.1 + 1) % c.length, Nat.mod_lt _ i.pos⟩ ∈ depsOf tasks (c.get i)) :
    ∀ (k : Nat) (hk : k < (rawLayers tasks).length),
      ∀ x ∈ (rawLayers tasks)[k], x ∉ c := by
  have he := (rawLayers_final tasks hnd).2.2.1
  intro k
  induction k using Nat.strong_induction_on with
  | _ k ih =>
      intro hk x hx hxc
      obtain ⟨i, hi⟩ := List.mem_iff_get.mp hxc
      have hnext : c.get ⟨(i.1 + 1) % c.length, Nat.mod_lt _ i.pos⟩ ∈
          depsOf tasks x := by
        rw [← hi]
        exact hcyc i
      have hdtake := he k hk x hx _ hnext
      rw [List.mem_flatten] at hdtake
      obtain ⟨l, hl, hnl⟩ := hdtake
      obtain ⟨n, hn⟩ := List.mem_iff_get.mp hl
      have hlen := List.length_take k (rawLayers tasks)
      have hnk : n.1 < k :=
        lt_of_lt_of_le n.2 (by rw [hlen]; exact Nat.min_le_left _ _)
      have hnlen : n.1 < (rawLayers tasks).length :=
        lt_of_lt_of_le n.2 (by rw [hlen]; exact Nat.min_le_right _ _)
      have hmem : c.get ⟨(i.1 + 1) % c.length, Nat.mod_lt _ i.pos⟩ ∈
          (rawLayers tasks)[n.1] := by
        have hget : (List.take k (rawLayers tasks)).get n =
            (rawLayers tasks)[n.1] := by
          rw [List.get_eq_getElem, List.getElem_take]
        rw [← hget, hn]
        exact hnl
      exact ih n.1 hnk hnlen _ hmem (List.get_mem c _ _)

/-- C3: a task list whose dependency graph contains a cycle always makes
`TaskPlanner.topological_sort` raise the cycle-detected `ValueError` and never
return a plan; and the sort fails exactly when the number of tasks placed into
layers is less than the total task count. -/
theorem topological_sort_cycle_detected (tasks : List Task)
    (hnd : (taskIds tasks).Nodup) :
    (HasDepCycle tasks →
      topological_sort tasks = .error "Cycle detected in task dependencies!") ∧
    (topological_sort tasks = .error "Cycle detected in task dependencies!" ↔
      visitedCount tasks < tasks.length) := by
  have hle := visitedCount_le tasks hnd
  constructor
  · intro ⟨c, hne, hcyc⟩
    by_cases hvc : visitedCount tasks = tasks.length
    · exfalso
      have hperm := flatten_perm_taskIds tasks hnd hvc
      have hcids : ∀ x ∈ c, x ∈ taskIds tasks := by
        intro x hx
        obtain ⟨i, hi⟩ := List.mem_iff_get.mp hx
        apply mem_taskIds_of_depsOf_ne
        intro hnil
        have hmem := hcyc i
        rw [hi, hnil] at hmem
        cases hmem
      obtain ⟨x0, hx0⟩ : ∃ x, x ∈ c := by
        cases c with
        | nil => exact absurd rfl hne
        | cons a l => exact ⟨a, List.mem_cons_self a l⟩
      have hx0p : x0 ∈ (rawLayers tasks).flatten :=
        hperm.mem_iff.mpr (hcids x0 hx0)
      rw [List.mem_flatten] at hx0p
      obtain ⟨l, hl, hx0l⟩ := hx0p
      obtain ⟨⟨k, hk⟩, hget⟩ := List.mem_iff_get.mp hl
      have hx0k : x0 ∈ (rawLayers tasks)[k] := by
        rw [List.get_eq_getElem] at hget
        rw [hget]
        exact hx0l
      exact cycle_elem_not_placed tasks hnd c hcyc k hk x0 hx0k hx0
    · rw [topological_sort, if_neg hvc]
  · constructor
    · intro herr
      by_cases hvc : visitedCount tasks = tasks.length
      · rw [topological_sort, if_pos hvc] at herr
        cases herr
      · omega
    · intro hlt
      rw [topological_sort, if_neg (by omega)]

/-- Witness for C3 at the concrete two-task cycle T1 ⇄ T2. -/
theorem topological_sort_cycle_detected_witness :
    (taskIds [⟨"T1", "filter", ["T2"], 0⟩, ⟨"T2", "group", ["T1"], 0⟩]).Nodup ∧
    HasDepCycle [⟨"T1", "filter", ["T2"], 0⟩, ⟨"T2", "group", ["T1"], 0⟩] ∧
    topological_sort [⟨"T1", "filter", ["T2"], 0⟩, ⟨"T2", "group", ["T1"], 0⟩]
      = .error "Cycle detected in task dependencies!" :=
  ⟨by decide, ⟨["T1", "T2"], by decide, by decide⟩,
    (topological_sort_cycle_detected
        [⟨"T1", "filter", ["T2"], 0⟩, ⟨"T2", "group", ["T1"], 0⟩]
        (by decide)).1 ⟨["T1", "T2"], by decide, by decide⟩⟩

/-- C4: in any plan returned by `TaskPlanner.topological_sort`, every
dependency of every task placed in layer `k` lies in a strictly earlier
layer. -/
theorem topological_sort_deps_in_earlier_levels (tasks : List Task)
    (hnd : (taskIds tasks).Nodup) (layers : List (List String))
    (hok : topological_sort tasks = .ok layers)
    (k : Nat) (hk : k < layers.length) (t : Task) (ht : t ∈ tasks)
    (hx : t.task_id ∈ layers[k]) :
    ∀ d ∈ t.depends_on, d ∈ (layers.take k).flatten := by
  obtain ⟨hlay, _⟩ := topological_sort_ok_elim tasks layers hok
  subst hlay
  intro d hd
  have he := (rawLayers_final tasks hnd).2.2.1
  exact he k hk t.task_id hx d (by rw [depsOf_eq tasks hnd t ht]; exact hd)

/-- Witness for C4 on the chain T1 ← T2 ← T3 at layer 1 (task T2). -/
theorem topological_sort_deps_in_earlier_levels_witness :
    (taskIds [⟨"T1", "filter", [], 0⟩, ⟨"T2", "group", ["T1"], 0⟩,
      ⟨"T3", "aggregate", ["T2"], 0⟩]).Nodup ∧
    topological_sort [⟨"T1", "filter", [], 0⟩, ⟨"T2", "group", ["T1"], 0⟩,
      ⟨"T3", "aggregate", ["T2"], 0⟩] = .ok [["T1"], ["T2"], ["T3"]] ∧
    "T1" ∈ (([["T1"], ["T2"], ["T3"]] : List (List String)).take 1).flatten :=
  ⟨by decide, rfl,
    topological_sort_deps_in_earlier_levels
      [⟨"T1", "filter", [], 0⟩, ⟨"T2", "group", ["T1"], 0⟩,
        ⟨"T3", "aggregate", ["T2"], 0⟩]
      (by decide) [["T1"], ["T2"], ["T3"]] rfl 1 (by decide)
      ⟨"T2", "group", ["T1"], 0⟩ (by decide) (by decide) "T1"
      (by decide)⟩

/-- C5: in any plan returned by `TaskPlanner.topological_sort`, the multiset
union of the layers' task ids equals the input task id list exactly: every
task appears in exactly one layer, no duplicates, none omitted. -/
theorem topological_sort_layers_perm (tasks : List Task)
    (hnd : (taskIds tasks).Nodup) (layers : List (List String))
    (hok : topological_sort tasks = .ok layers) :
    layers.flatten.Perm (taskIds tasks) := by
  obtain ⟨hlay, hvc⟩ := topological_sort_ok_elim tasks layers hok
  subst hlay
  exact flatten_perm_taskIds tasks hnd hvc

/-- Witness for C5 on the diamond-free plan `[[T1, T2], [T3]]`. -/
theorem topological_sort_layers_perm_witness :
    (taskIds [⟨"T1", "filter", [], 0⟩, ⟨"T2", "filter", [], 0⟩,
      ⟨"T3", "group", ["T1", "T2"], 0⟩]).Nodup ∧
    topological_sort [⟨"T1", "filter", [], 0⟩, ⟨"T2", "filter", [], 0⟩,
      ⟨"T3", "group", ["T1", "T2"], 0⟩] = .ok [["T1", "T2"], ["T3"]] ∧
    ([["T1", "T2"], ["T3"]] : List (List String)).flatten.Perm
      (taskIds [⟨"T1", "filter", [], 0⟩, ⟨"T2", "filter", [], 0⟩,
        ⟨"T3", "group", ["T1", "T2"], 0⟩]) :=
  ⟨by decide, rfl,
    topological_sort_layers_perm
      [⟨"T1", "filter", [], 0⟩, ⟨"T2", "filter", [], 0⟩,
        ⟨"T3", "group", ["T1", "T2"], 0⟩]
      (by decide) [["T1", "T2"], ["T3"]] rfl⟩

/-- C2 counterexample: a task list referencing the nonexistent dependency id
"TX" makes plan construction fail with the cycle-detected `ValueError`, not
with an `UnknownDependency` error; no unknown-dependency check exists in
`TaskPlanner.build_dag` or anywhere else in the planner. -/
theorem unknown_dependency_counterexample :
    topological_sort [⟨"T1", "filter", ["TX"], 0⟩]
      = .error "Cycle detected in task dependencies!" ∧
    "Cycle detected in task dependencies!" ≠ "UnknownDependency" :=
  ⟨rfl, by decide⟩

/-- C2 amended: a task list referencing a dependency id absent from the
supplied task ids always makes `TaskPlanner.topological_sort` fail — so no
plan is ever produced and no task can execute — but the failure is the
cycle-detected `ValueError` raised by the final count check, not a dedicated
`UnknownDependency` error at DAG-build time. -/
theorem unknown_dependency_raises_cycle_error (tasks : List Task)
    (hnd : (taskIds tasks).Nodup) (t : Task) (ht : t ∈ tasks)
    (d : String) (hd : d ∈ t.depends_on) (hu : d ∉ taskIds tasks) :
    topological_sort tasks = .error "Cycle detected in task dependencies!" := by
  by_cases hvc : visitedCount tasks = tasks.length
  · exfalso
    have hperm := flatten_perm_taskIds tasks hnd hvc
    have hxp : t.task_id ∈ (rawLayers tasks).flatten :=
      hperm.mem_iff.mpr (List.mem_map_of_mem _ ht)
    have hdP := deps_subset_flatten tasks (rawLayers tasks)
      (rawLayers_final tasks hnd).2.2.1 t.task_id hxp d
      (by rw [depsOf_eq tasks hnd t ht]; exact hd)
    exact hu ((rawLayers_final tasks hnd).2.1 d hdP)
  · rw [topological_sort, if_neg hvc]

/-- Witness for the amended C2 at the concrete list `[T1 depending on TX]`. -/
theorem unknown_dependency_raises_cycle_error_witness :
    (taskIds [⟨"T1", "filter", ["TX"], 0⟩]).Nodup ∧
    "TX" ∉ taskIds [⟨"T1", "filter", ["TX"], 0⟩] ∧
    topological_sort [⟨"T1", "filter", ["TX"], 0⟩]
      = .error "Cycle detected in task dependencies!" :=
  ⟨by decide, by decide,
    unknown_dependency_raises_cycle_error [⟨"T1", "filter", ["TX"], 0⟩]
      (by decide) ⟨"T1", "filter", ["TX"], 0⟩ (by decide) "TX" (by decide)
      (by decide)⟩

/-! ### The parallel executor (`parallel_executor.py`)

Values flowing between tasks are tables of rows (identified positionally),
grouped views, or the `"Error: ..."` string a failed worker stores as the
task's result.  The tabular operations (filter/group/aggregate over pandas
dataframes) are the external capability `applyOp`; wall-clock durations
measured with `time.time()` are supplied by oracles `dur` (per task),
`levelDur` (per level) and `totalDur`. -/

inductive Value where
  | table (rows : List Nat)
  | grouped (rows : List Nat)
  | err (msg : String)
  deriving Repr, DecidableEq

/-- Python-dict assignment `d[k] = v` on an association list: overwrite in
place when the key exists, append otherwise. -/
def dictInsert {α : Type} (l : List (String × α)) (k : String) (v : α) :
    List (String × α) :=
  if (l.find? (fun p => p.1 = k)).isSome
  then l.map (fun p => if p.1 = k then (p.1, v) else p)
  else l ++ [(k, v)]

/-- Python-dict read `d[k]`, as an `Option`. -/
def dictLookup {α : Type} (l : List (String × α)) (k : String) : Option α :=
  (l.find? (fun p => p.1 = k)).map Prod.snd

/-- `d.update(m)`. -/
def dictUpdate {α : Type} (l m : List (String × α)) : List (String × α) :=
  m.foldl (fun acc p => dictInsert acc p.1 p.2) l

/-- The mutable dicts of a `ParallelExecutor` instance.  `__init__` creates
them empty; `execute_plan` only ever inserts into them and never clears them
(`self.results` is never read, so it is omitted). -/
structure ExecState where
  execution_times : List (String × Rat)
  task_process_map : List (String × Nat)
  level_times : List (String × Rat)
  deriving Repr, DecidableEq

/-- The state of a freshly constructed executor (`ParallelExecutor.__init__`). -/
def initState : ExecState := ⟨[], [], []⟩

/-- `worker_execute_task`: dispatch on the operation kind.  The
filter/group/aggregate branches invoke the tabular-operation capability inside
the `try`, and a raised failure `e` is caught and returned as the result
string `"Error: " ++ e`; the `fetch` branch and the default branch both return
the input unchanged and cannot raise.  Returns `(task_id, result,
process_id)`; the measured wall time is supplied separately by the duration
oracle. -/
def worker_execute_task (applyOp : Task → Value → Except String Value)
    (args : Value × Task × Nat) : String × Value × Nat :=
  let data := args.1
  let task := args.2.1
  let process_id := args.2.2
  let result :=
    if task.operation = "filter" ∨ task.operation = "group"
        ∨ task.operation = "aggregate" then
      match applyOp task data with
      | .ok v => v
      | .error e => .err ("Error: " ++ e)
    else if task.operation = "fetch" then data
    else data
  (task.task_id, result, process_id)

/-- Input resolution in `ParallelExecutor.execute_level`: a task with
dependencies reads `current_results[depends_on[0]]` — only the FIRST declared
dependency — and a task with no dependencies reads the original dataset.
`none` models the `KeyError` raised when the first dependency has no stored
result. -/
def task_input (data : Value) (current_results : List (String × Value))
    (task : Task) : Option Value :=
  match task.depends_on with
  | [] => some data
  | d :: _ => dictLookup current_results d

/-- The `task_args` loop of `execute_level`: one `(input, task, idx)` triple
per task, where `idx` is the enumeration index; stops with `none` at the first
unresolvable dependency (Python's `KeyError`). -/
def collectInputs (data : Value) (current_results : List (String × Value)) :
    List (Nat × Task) → Option (List (Value × Task × Nat))
  | [] => some []
  | p :: ps =>
      match task_input data current_results p.2 with
      | none => none
      | some v =>
          (collectInputs data current_results ps).map
            (fun rest => (v, p.2, p.1) :: rest)

/-- The body of `ParallelExecutor.execute_level` once every input has been
resolved: run the workers over the prepared `task_args` (`pool.map` preserves
argument order, and the single-task branch applies the same worker function
directly, so both branches are one `map`), store results keyed by task id,
and record per-task timing/slot data and the level's wall time in the
executor state. -/
def execute_level_core (applyOp : Task → Value → Except String Value)
    (dur : String → Rat) (levelDur : Nat → Rat) (level_id : Nat)
    (st : ExecState) (task_args : List (Value × Task × Nat)) :
    List (String × Value) × ExecState :=
  let outs := task_args.map (worker_execute_task applyOp)
  let level_results :=
    outs.foldl (fun acc r => dictInsert acc r.1 r.2.1) []
  let st1 := outs.foldl
    (fun (s : ExecState) r =>
      { s with
        execution_times := dictInsert s.execution_times r.1 (dur r.1),
        task_process_map := dictInsert s.task_process_map r.1 r.2.2 }) st
  let st2 := { st1 with
    level_times := dictInsert st1.level_times
      ("Level_" ++ toString level_id) (levelDur level_id) }
  (level_results, st2)

/-- `ParallelExecutor.execute_level`: resolve every task's input (raising
`KeyError`, modelled as `.error`, at the first missing dependency result),
then run the level body. -/
def execute_level (applyOp : Task → Value → Except String Value)
    (dur : String → Rat) (levelDur : Nat → Rat) (data : Value)
    (level_tasks : List Task) (current_results : List (String × Value))
    (level_id : Nat) (st : ExecState) :
    Except String (List (String × Value) × ExecState) :=
  match collectInputs data current_results level_tasks.enum with
  | none => .error "KeyError"
  | some task_args =>
      .ok (execute_level_core applyOp dur levelDur level_id st task_args)

/-- One iteration of the level-grouping loop at the top of
`ParallelExecutor.execute_plan`: append the task to its level's bucket,
creating the bucket on first sight of the level. -/
def levelStep (acc : List (Nat × List Task)) (t : Task) :
    List (Nat × List Task) :=
  if (acc.find? (fun p => p.1 = t.level)).isSome
  then acc.map (fun p => if p.1 = t.level then (p.1, p.2 ++ [t]) else p)
  else acc ++ [(t.level, [t])]

/-- The level-grouping loop of `ParallelExecutor.execute_plan`
(`task.get(level, 0)` is the `level` field), keys in first-appearance
order. -/
def groupByLevel (tasks : List Task) : List (Nat × List Task) :=
  tasks.foldl levelStep []

/-- The bucket of a level id inside the grouped dict (empty if absent). -/
def levelBucket (levels : List (Nat × List Task)) (lv : Nat) : List Task :=
  ((levels.find? (fun p => p.1 = lv)).map Prod.snd).getD []

/-- The `for level_id in sorted(levels.keys())` loop of `execute_plan`:
execute each level in ascending key order, merging each level's results into
`current_results`. -/
def runLevels (applyOp : Task → Value → Except String Value)
    (dur : String → Rat) (levelDur : Nat → Rat) (data : Value)
    (levels : List (Nat × List Task)) :
    List Nat → List (String × Value) → ExecState →
    Except String (List (String × Value) × ExecState)
  | [], cr, st => .ok (cr, st)
  | lv :: rest, cr, st =>
      match execute_level applyOp dur levelDur data (levelBucket levels lv)
          cr lv st with
      | .error e => .error e
      | .ok (lr, st1) =>
          runLevels applyOp dur levelDur data levels rest (dictUpdate cr lr) st1

/-- The shape of `results[final_result]`:
`list(final_results.values())[0] if len(final_results) == 1 else
final_results`. -/
inductive FinalResult where
  | single (v : Value)
  | multi (m : List (String × Value))
  deriving Repr, DecidableEq

/-- The dictionary returned by `ParallelExecutor.execute_plan`. -/
structure Report where
  final_result : FinalResult
  final_results : List (String × Value)
  all_results : List (String × Value)
  execution_times : List (String × Rat)
  level_times : List (String × Rat)
  task_process_map : List (String × Nat)
  total_execution_time : Rat
  num_processes_used : Nat
  total_tasks : Nat
  deriving Repr, DecidableEq

/-- The `final_results = {tid: current_results[tid] for tid in [...]}`
comprehension; `none` models its `KeyError`. -/
def collectFinal (cr : List (String × Value)) :
    List Task → Option (List (String × Value))
  | [] => some []
  | t :: ts =>
      match dictLookup cr t.task_id with
      | none => none
      | some v => (collectFinal cr ts).map (fun rest => (t.task_id, v) :: rest)

/-- Stable ascending insertion into a sorted list, used to model Python's
`sorted(levels.keys())`. -/
def insertSorted (x : Nat) : List Nat → List Nat
  | [] => [x]
  | y :: ys => if x ≤ y then x :: y :: ys else y :: insertSorted x ys

/-- `sorted(keys)`: ascending order (the keys are distinct level numbers, so
stability is irrelevant). -/
def sortKeys (l : List Nat) : List Nat := l.foldr insertSorted []

/-- `ParallelExecutor.execute_plan`: group tasks by their `level` field,
execute the levels in ascending order, then assemble the report from the last
level's results (`final_level = max(levels.keys())`).  The returned pair also
carries the executor state after the call, since the instance dicts survive
into any later call on the same executor. -/
def execute_plan (applyOp : Task → Value → Except String Value)
    (dur : String → Rat) (levelDur : Nat → Rat) (totalDur : Rat)
    (data : Value) (num_processes : Nat) (st : ExecState)
    (tasks : List Task) : Except String (Report × ExecState) :=
  let levels := groupByLevel tasks
  match runLevels applyOp dur levelDur data levels
      (sortKeys (levels.map Prod.fst)) [] st with
  | .error e => .error e
  | .ok (current_results, st1) =>
      match (levels.map Prod.fst).max? with
      | none => .error "ValueError: max() arg is an empty sequence"
      | some final_level =>
          match collectFinal current_results
              (levelBucket levels final_level) with
          | none => .error "KeyError"
          | some final_results =>
              .ok
                ({ final_result :=
                    match final_results with
                    | [p] => FinalResult.single p.2
                    | _ => FinalResult.multi final_results,
                   final_results := final_results,
                   all_results := current_results,
                   execution_times := st1.execution_times,
                   level_times := st1.level_times,
                   task_process_map := st1.task_process_map,
                   total_execution_time := totalDur,
                   num_processes_used := num_processes,
                   total_tasks := tasks.length }, st1)

/-- `sequential_time = sum(results[execution_times].values())` in
`ParallelExecutor.print_performance_report`. -/
def sequential_time (r : Report) : Rat :=
  (r.execution_times.map Prod.snd).sum

/-- `speedup = sequential_time / results[total_execution_time]`. -/
def speedup (r : Report) : Rat :=
  sequential_time r / r.total_execution_time

/-- `efficiency = (speedup / results[num_processes_used]) * 100` — note the
factor 100: the report prints a percentage. -/
def efficiency (r : Report) : Rat :=
  speedup r / (r.num_processes_used : Rat) * 100

/-- Modelled from the spec (§4.3 rule 2): the Dependency Merger's policy for
all-tabular inputs — "the merge computes the intersection of rows (matched by
positional/row identity)".  No such merger exists in `parallel_executor.py`;
this definition follows the spec's words only, to be compared against the
input the executor actually passes. -/
def specRowIntersection : List (List Nat) → List Nat
  | [] => []
  | r :: rs => rs.foldl (fun acc r2 => acc.filter (fun x => x ∈ r2)) r

-- Sanity checks of the executor embedding.
example :
    worker_execute_task (fun _ _ => .error "boom")
      (.table [1, 2], ⟨"T1", "filter", [], 0⟩, 0)
      = ("T1", .err "Error: boom", 0) := rfl

example :
    worker_execute_task (fun _ _ => .error "boom")
      (.table [1, 2], ⟨"T1", "fetch", [], 0⟩, 3)
      = ("T1", .table [1, 2], 3) := rfl

example :
    (execute_plan (fun _ v => .ok v) (fun _ => 2) (fun _ => 1) 1 (.table [5])
        1 initState [⟨"T1", "fetch", [], 0⟩]).map
      (fun p => p.1.final_result)
      = .ok (FinalResult.single (.table [5])) := rfl

example : specRowIntersection [[1, 2, 3], [2, 3], [3, 4]] = [3] := rfl

/-! ### Association-list infrastructure -/

theorem collectInputs_some (data : Value) (cr : List (String × Value)) :
    ∀ l : List (Nat × Task),
      (∀ p ∈ l, task_input data cr p.2 ≠ none) →
      collectInputs data cr l =
        some (l.map (fun p => ((task_input data cr p.2).getD data, p.2, p.1))) := by
  intro l
  induction l with
  | nil => intro _; rfl
  | cons p ps ih =>
      intro h
      have hp := h p (List.mem_cons_self p ps)
      cases hti : task_input data cr p.2 with
      | none => exact absurd hti hp
      | some v =>
          simp only [collectInputs, hti,
            ih (fun q hq => h q (List.mem_cons_of_mem p hq)), Option.map_some',
            List.map_cons, Option.getD_some]

theorem collectInputs_some_inv (data : Value) (cr : List (String × Value)) :
    ∀ (l : List (Nat × Task)) (args : List (Value × Task × Nat)),
      collectInputs data cr l = some args →
      args = l.map (fun p => ((task_input data cr p.2).getD data, p.2, p.1)) := by
  intro l
  induction l with
  | nil =>
      intro args h
      simp only [collectInputs] at h
      cases h
      rfl
  | cons p ps ih =>
      intro args h
      simp only [collectInputs] at h
      cases hti : task_input data cr p.2 with
      | none => rw [hti] at h; cases h
      | some v =>
          rw [hti] at h
          cases hrest : collectInputs data cr ps with
          | none => rw [hrest] at h; cases h
          | some rest =>
              rw [hrest] at h
              simp only [Option.map_some', Option.some.injEq] at h
              subst h
              rw [List.map_cons, ← ih rest hrest, hti, Option.getD_some]

theorem collectFinal_some_inv (cr : List (String × Value)) :
    ∀ (l : List Task) (fr : List (String × Value)),
      collectFinal cr l = some fr →
      fr.map Prod.fst = l.map (fun t => t.task_id) ∧
        ∀ p ∈ fr, dictLookup cr p.1 = some p.2 := by
  intro l
  induction l with
  | nil =>
      intro fr h
      simp only [collectFinal] at h
      cases h
      exact ⟨rfl, by intro p hp; cases hp⟩
  | cons t ts ih =>
      intro fr h
      simp only [collectFinal] at h
      cases hti : dictLookup cr t.task_id with
      | none => rw [hti] at h; cases h
      | some v =>
          rw [hti] at h
          cases hrest : collectFinal cr ts with
          | none => rw [hrest] at h; cases h
          | some rest =>
              rw [hrest] at h
              simp only [Option.map_some', Option.some.injEq] at h
              subst h
              obtain ⟨ih1, ih2⟩ := ih rest hrest
              refine ⟨by simp [ih1], ?_⟩
              intro p hp
              rcases List.mem_cons.mp hp with hp | hp
              · subst hp
                exact hti
              · exact ih2 p hp

theorem dictInsert_fresh {α : Type} (l : List (String × α)) (k : String)
    (v : α) (h : ∀ p ∈ l, p.1 ≠ k) : dictInsert l k v = l ++ [(k, v)] := by
  have hfind : l.find? (fun p => decide (p.1 = k)) = none := by
    rw [List.find?_eq_none]
    intro p hp
    simp only [decide_eq_true_eq]
    exact h p hp
  rw [dictInsert, hfind]
  rfl

theorem foldl_dictInsert_fresh {α β : Type} (f : β → String) (g : β → α) :
    ∀ (l : List β) (acc : List (String × α)),
      ((acc.map Prod.fst) ++ l.map f).Nodup →
      l.foldl (fun a r => dictInsert a (f r) (g r)) acc =
        acc ++ l.map (fun r => (f r, g r)) := by
  intro l
  induction l with
  | nil =>
      intro acc _
      simp
  | cons r rs ih =>
      intro acc hnd
      have hfresh : ∀ p ∈ acc, p.1 ≠ f r := by
        intro p hp he
        have h1 : f r ∈ acc.map Prod.fst := he ▸ List.mem_map_of_mem _ hp
        have h2 : f r ∈ (r :: rs).map f := by
          rw [List.map_cons]
          exact List.mem_cons_self _ _
        rw [List.nodup_append] at hnd
        exact hnd.2.2 h1 h2
      rw [List.foldl_cons, dictInsert_fresh acc (f r) (g r) hfresh]
      rw [ih (acc ++ [(f r, g r)]) (by
        rw [List.map_cons] at hnd
        simp only [List.map_append, List.map_cons, List.map_nil]
        have : (acc.map Prod.fst ++ [f r]) ++ rs.map f =
            acc.map Prod.fst ++ f r :: rs.map f := by simp
        rw [this]
        simpa using hnd)]
      simp

theorem dictLookup_of_mem_nodup {α : Type} :
    ∀ (l : List (String × α)), (l.map Prod.fst).Nodup →
      ∀ (k : String) (v : α), (k, v) ∈ l → dictLookup l k = some v := by
  intro l
  induction l with
  | nil =>
      intro _ k v hm
      cases hm
  | cons p ps ih =>
      intro hnd k v hm
      rw [List.map_cons, List.nodup_cons] at hnd
      rcases List.mem_cons.mp hm with hm | hm
      · subst hm
        simp [dictLookup, List.find?]
      · have hne : p.1 ≠ k := by
          intro he
          exact hnd.1 (he ▸ List.mem_map_of_mem Prod.fst hm)
        simp only [dictLookup, List.find?,
          show (decide (p.1 = k)) = false by simp [hne]]
        exact ih hnd.2 k v hm

/-- The per-result state-update loop in `execute_level` acts on the three
dict fields independently. -/
theorem foldl_state_et (dur : String → Rat) :
    ∀ (outs : List (String × Value × Nat)) (st : ExecState),
      (outs.foldl
        (fun (s : ExecState) r =>
          { s with
            execution_times := dictInsert s.execution_times r.1 (dur r.1),
            task_process_map := dictInsert s.task_process_map r.1 r.2.2 })
        st).execution_times =
      outs.foldl (fun l r => dictInsert l r.1 (dur r.1)) st.execution_times := by
  intro outs
  induction outs with
  | nil => intro st; rfl
  | cons r rs ih =>
      intro st
      rw [List.foldl_cons, List.foldl_cons]
      exact ih _

theorem foldl_state_tpm (dur : String → Rat) :
    ∀ (outs : List (String × Value × Nat)) (st : ExecState),
      (outs.foldl
        (fun (s : ExecState) r =>
          { s with
            execution_times := dictInsert s.execution_times r.1 (dur r.1),
            task_process_map := dictInsert s.task_process_map r.1 r.2.2 })
        st).task_process_map =
      outs.foldl (fun l r => dictInsert l r.1 r.2.2) st.task_process_map := by
  intro outs
  induction outs with
  | nil => intro st; rfl
  | cons r rs ih =>
      intro st
      rw [List.foldl_cons, List.foldl_cons]
      exact ih _

theorem foldl_state_lt (dur : String → Rat) :
    ∀ (outs : List (String × Value × Nat)) (st : ExecState),
      (outs.foldl
        (fun (s : ExecState) r =>
          { s with
            execution_times := dictInsert s.execution_times r.1 (dur r.1),
            task_process_map := dictInsert s.task_process_map r.1 r.2.2 })
        st).level_times = st.level_times := by
  intro outs
  induction outs with
  | nil => intro st; rfl
  | cons r rs ih =>
      intro st
      rw [List.foldl_cons]
      exact ih _

/-! ### Evaluation lemmas for `execute_level` -/

theorem worker_execute_task_fst (applyOp : Task → Value → Except String Value)
    (args : Value × Task × Nat) :
    (worker_execute_task applyOp args).1 = args.2.1.task_id := rfl

theorem enum_map_task_id (l : List Task) :
    l.enum.map (fun p => p.2.task_id) = l.map (fun t => t.task_id) := by
  rw [show (fun p : Nat × Task => p.2.task_id) =
      (fun t : Task => t.task_id) ∘ Prod.snd from rfl, ← List.map_map,
    List.enum_map_snd]

theorem execute_level_eq_ok (applyOp : Task → Value → Except String Value)
    (dur : String → Rat) (levelDur : Nat → Rat) (data : Value)
    (level_tasks : List Task) (current_results : List (String × Value))
    (level_id : Nat) (st : ExecState) (task_args : List (Value × Task × Nat))
    (h : collectInputs data current_results level_tasks.enum = some task_args) :
    execute_level applyOp dur levelDur data level_tasks current_results
        level_id st
      = .ok (execute_level_core applyOp dur levelDur level_id st task_args) := by
  unfold execute_level
  rw [h]

theorem execute_level_eq_error (applyOp : Task → Value → Except String Value)
    (dur : String → Rat) (levelDur : Nat → Rat) (data : Value)
    (level_tasks : List Task) (current_results : List (String × Value))
    (level_id : Nat) (st : ExecState)
    (h : collectInputs data current_results level_tasks.enum = none) :
    execute_level applyOp dur levelDur data level_tasks current_results
        level_id st = .error "KeyError" := by
  unfold execute_level
  rw [h]

theorem execute_level_core_results
    (applyOp : Task → Value → Except String Value) (dur : String → Rat)
    (levelDur : Nat → Rat) (level_id : Nat) (st : ExecState)
    (task_args : List (Value × Task × Nat))
    (hnd : (task_args.map (fun a => a.2.1.task_id)).Nodup) :
    (execute_level_core applyOp dur levelDur level_id st task_args).1 =
      task_args.map (fun a =>
        (a.2.1.task_id, (worker_execute_task applyOp a).2.1)) := by
  unfold execute_level_core
  dsimp only
  rw [foldl_dictInsert_fresh Prod.fst (fun r => r.2.1)
    (task_args.map (worker_execute_task applyOp)) []
    (by simpa using hnd)]
  rw [List.nil_append, List.map_map]
  rfl

theorem execute_level_core_et
    (applyOp : Task → Value → Except String Value) (dur : String → Rat)
    (levelDur : Nat → Rat) (level_id : Nat) (st : ExecState)
    (task_args : List (Value × Task × Nat))
    (hndE : ((st.execution_times.map Prod.fst) ++
      task_args.map (fun a => a.2.1.task_id)).Nodup) :
    (execute_level_core applyOp dur levelDur level_id st
        task_args).2.execution_times =
      st.execution_times ++
        task_args.map (fun a => (a.2.1.task_id, dur a.2.1.task_id)) := by
  unfold execute_level_core
  dsimp only
  rw [foldl_state_et dur (task_args.map (worker_execute_task applyOp)) st]
  rw [foldl_dictInsert_fresh Prod.fst (fun r => dur r.1)
    (task_args.map (worker_execute_task applyOp)) st.execution_times
    (by rw [List.map_map]; exact hndE)]
  rw [List.map_map]
  rfl

theorem execute_level_core_tpm
    (applyOp : Task → Value → Except String Value) (dur : String → Rat)
    (levelDur : Nat → Rat) (level_id : Nat) (st : ExecState)
    (task_args : List (Value × Task × Nat))
    (hndP : ((st.task_process_map.map Prod.fst) ++
      task_args.map (fun a => a.2.1.task_id)).Nodup) :
    (execute_level_core applyOp dur levelDur level_id st
        task_args).2.task_process_map =
      st.task_process_map ++
        task_args.map (fun a => (a.2.1.task_id, a.2.2)) := by
  unfold execute_level_core
  dsimp only
  rw [foldl_state_tpm dur (task_args.map (worker_execute_task applyOp)) st]
  rw [foldl_dictInsert_fresh Prod.fst (fun r => r.2.2)
    (task_args.map (worker_execute_task applyOp)) st.task_process_map
    (by rw [List.map_map]; exact hndP)]
  rw [List.map_map]
  rfl

theorem execute_level_core_lt
    (applyOp : Task → Value → Except String Value) (dur : String → Rat)
    (levelDur : Nat → Rat) (level_id : Nat) (st : ExecState)
    (task_args : List (Value × Task × Nat)) :
    (execute_level_core applyOp dur levelDur level_id st
        task_args).2.level_times =
      dictInsert st.level_times ("Level_" ++ toString level_id)
        (levelDur level_id) := by
  unfold execute_level_core
  dsimp only
  rw [foldl_state_lt dur (task_args.map (worker_execute_task applyOp)) st]

/-- C10: for any operation kind other than filter/group/aggregate — this
includes `"fetch"` and every unrecognized kind — the worker returns the
task's input value unchanged as its (successful) result, whatever the tabular
capability does. -/
theorem worker_execute_task_passthrough
    (applyOp : Task → Value → Except String Value) (data : Value)
    (task : Task) (pid : Nat)
    (h1 : task.operation ≠ "filter") (h2 : task.operation ≠ "group")
    (h3 : task.operation ≠ "aggregate") :
    worker_execute_task applyOp (data, task, pid) =
      (task.task_id, data, pid) := by
  unfold worker_execute_task
  dsimp only
  rw [if_neg (by simp [h1, h2, h3]), ite_self]

/-- Witness for C10 on a `"fetch"` task under an always-failing capability. -/
theorem worker_execute_task_passthrough_witness :
    (("fetch" : String) ≠ "filter" ∧ ("fetch" : String) ≠ "group" ∧
      ("fetch" : String) ≠ "aggregate") ∧
    worker_execute_task (fun _ _ => .error "boom")
      (.table [7], ⟨"T9", "fetch", [], 0⟩, 2) = ("T9", .table [7], 2) :=
  ⟨⟨by decide, by decide, by decide⟩,
    worker_execute_task_passthrough (fun _ _ => .error "boom") (.table [7])
      ⟨"T9", "fetch", [], 0⟩ 2 (by decide) (by decide) (by decide)⟩

/-- C6: (i) whenever every task of a level has a resolvable input,
`execute_level` returns normally — no exception escapes — and stores, for
every task of the level independently of its siblings, exactly the worker's
result on that task's own input (the worker itself wraps any capability
failure into an `"Error: ..."`-valued result); (ii) for the two-level plan
`[[T1], [T2 depending on T1]]` under a capability that fails, the executor
still returns a complete report in which T1's and T2's results are both
error-valued. -/
theorem execute_level_failure_containment :
    (∀ (applyOp : Task → Value → Except String Value) (dur : String → Rat)
      (levelDur : Nat → Rat) (data : Value) (level_tasks : List Task)
      (cr : List (String × Value)) (level_id : Nat) (st : ExecState),
      (∀ t ∈ level_tasks, task_input data cr t ≠ none) →
      (level_tasks.map (fun t => t.task_id)).Nodup →
      ∃ st2, execute_level applyOp dur levelDur data level_tasks cr level_id st
        = .ok (level_tasks.enum.map (fun p => (p.2.task_id,
            (worker_execute_task applyOp
              ((task_input data cr p.2).getD data, p.2, p.1)).2.1)), st2)) ∧
    (∀ (applyOp : Task → Value → Except String Value) (dur : String → Rat)
      (levelDur : Nat → Rat) (totalDur : Rat) (data : Value)
      (num : Nat) (st : ExecState) (e : String),
      (∀ t v, applyOp t v = .error e) →
      (execute_plan applyOp dur levelDur totalDur data num st
          [⟨"T1", "filter", [], 0⟩, ⟨"T2", "aggregate", ["T1"], 1⟩]).map
        (fun p => (p.1.final_results, dictLookup p.1.all_results "T1",
          dictLookup p.1.all_results "T2"))
        = .ok ([("T2", .err ("Error: " ++ e))],
            some (.err ("Error: " ++ e)), some (.err ("Error: " ++ e)))) := by
  constructor
  · intro applyOp dur levelDur data level_tasks cr level_id st hres hnd
    have hres' : ∀ p ∈ level_tasks.enum, task_input data cr p.2 ≠ none := by
      intro p hp
      apply hres
      have hmem : p.2 ∈ level_tasks.enum.map Prod.snd :=
        List.mem_map_of_mem _ hp
      rwa [List.enum_map_snd] at hmem
    have hargs := collectInputs_some data cr level_tasks.enum hres'
    have hids : ((level_tasks.enum.map
        (fun p => ((task_input data cr p.2).getD data, p.2, p.1))).map
          (fun a => a.2.1.task_id)).Nodup := by
      rw [List.map_map]
      have hcomp : ((fun a : Value × Task × Nat => a.2.1.task_id) ∘
          (fun p : Nat × Task =>
            ((task_input data cr p.2).getD data, p.2, p.1)))
          = fun p : Nat × Task => p.2.task_id := rfl
      rw [hcomp, enum_map_task_id]
      exact hnd
    have hform : (execute_level_core applyOp dur levelDur level_id st
        (level_tasks.enum.map
          (fun p => ((task_input data cr p.2).getD data, p.2, p.1)))).1 =
        level_tasks.enum.map (fun p => (p.2.task_id,
          (worker_execute_task applyOp
            ((task_input data cr p.2).getD data, p.2, p.1)).2.1)) := by
      rw [execute_level_core_results applyOp dur levelDur level_id st _ hids,
        List.map_map]
      rfl
    refine ⟨(execute_level_core applyOp dur levelDur level_id st
      (level_tasks.enum.map
        (fun p => ((task_input data cr p.2).getD data, p.2, p.1)))).2, ?_⟩
    rw [execute_level_eq_ok applyOp dur levelDur data level_tasks cr level_id
      st _ hargs, ← hform]
  · intro applyOp dur levelDur totalDur data num st e happ
    have happ' : applyOp = fun _ _ => .error e := by
      funext t v
      exact happ t v
    subst happ'
    rfl

/-- Witness for C6: the failing two-level scenario with a concrete
capability. -/
theorem execute_level_failure_containment_witness :
    (∀ (t : Task) (v : Value),
      (fun (_ : Task) (_ : Value) => (.error "boom" : Except String Value)) t v
        = .error "boom") ∧
    (execute_plan (fun _ _ => .error "boom") (fun _ => 0) (fun _ => 0) 0
        (.table [1]) 1 initState
        [⟨"T1", "filter", [], 0⟩, ⟨"T2", "aggregate", ["T1"], 1⟩]).map
      (fun p => (p.1.final_results, dictLookup p.1.all_results "T1",
        dictLookup p.1.all_results "T2"))
      = .ok ([("T2", .err "Error: boom")],
          some (.err "Error: boom"), some (.err "Error: boom")) :=
  ⟨fun _ _ => rfl,
    execute_level_failure_containment.2 (fun _ _ => .error "boom")
      (fun _ => 0) (fun _ => 0) 0 (.table [1]) 1 initState "boom"
      (fun _ _ => rfl)⟩

/-- C1 counterexample: in the two-filter fan-in plan
`[T1: filter, T2: filter, T3: group(deps=[T1, T2])]`, with T1 producing table
`[1]` and T2 producing table `[2]` from the source table `[1, 2]`, the
executor hands T3 the value `table [1]` — T1's output alone, since
`execute_level` reads only `depends_on[0]` — whereas the row-intersection of
T1's and T2's outputs is the empty table.  (T3's grouping capability is the
identity here, so T3's stored result exhibits the input it was passed.) -/
theorem merge_intersection_counterexample :
    (execute_plan
        (fun t v =>
          if t.task_id = "T1" then .ok (.table [1])
          else if t.task_id = "T2" then .ok (.table [2])
          else .ok v)
        (fun _ => 0) (fun _ => 0) 0 (.table [1, 2]) 2 initState
        [⟨"T1", "filter", [], 0⟩, ⟨"T2", "filter", [], 0⟩,
          ⟨"T3", "group", ["T1", "T2"], 1⟩]).map
      (fun p => dictLookup p.1.all_results "T3")
      = .ok (some (.table [1])) ∧
    specRowIntersection [[1], [2]] = [] ∧
    Value.table [1] ≠ Value.table [] :=
  ⟨rfl, rfl, by decide⟩

/-- C1 amended: the input `execute_level` passes to a task with declared
dependencies is exactly the stored output of its FIRST declared dependency
(`current_results[depends_on[0]]`); the remaining dependencies are ignored and
no row-intersection is computed. -/
theorem execute_level_uses_first_dependency
    (applyOp : Task → Value → Except String Value) (dur : String → Rat)
    (levelDur : Nat → Rat) (data : Value) (level_tasks : List Task)
    (cr : List (String × Value)) (level_id : Nat) (st : ExecState)
    (lr : List (String × Value)) (st2 : ExecState)
    (hok : execute_level applyOp dur levelDur data level_tasks cr level_id st
      = .ok (lr, st2))
    (hnd : (level_tasks.map (fun t => t.task_id)).Nodup)
    (i : Nat) (hi : i < level_tasks.length) (d : String) (ds : List String)
    (v : Value)
    (hdeps : (level_tasks.get ⟨i, hi⟩).depends_on = d :: ds)
    (hv : dictLookup cr d = some v) :
    dictLookup lr (level_tasks.get ⟨i, hi⟩).task_id =
      some ((worker_execute_task applyOp
        (v, level_tasks.get ⟨i, hi⟩, i)).2.1) := by
  unfold execute_level at hok
  cases hci : collectInputs data cr level_tasks.enum with
  | none =>
      rw [hci] at hok
      cases hok
  | some task_args =>
      rw [hci] at hok
      have hargs := collectInputs_some_inv data cr level_tasks.enum
        task_args hci
      subst hargs
      have hids : ((level_tasks.enum.map
          (fun p => ((task_input data cr p.2).getD data, p.2, p.1))).map
            (fun a => a.2.1.task_id)).Nodup := by
        rw [List.map_map]
        have hcomp : ((fun a : Value × Task × Nat => a.2.1.task_id) ∘
            (fun p : Nat × Task =>
              ((task_input data cr p.2).getD data, p.2, p.1)))
            = fun p : Nat × Task => p.2.task_id := rfl
        rw [hcomp, enum_map_task_id]
        exact hnd
      have hlr : lr = (level_tasks.enum.map
          (fun p => ((task_input data cr p.2).getD data, p.2, p.1))).map
            (fun a => (a.2.1.task_id, (worker_execute_task applyOp a).2.1)) := by
        have hcore := execute_level_core_results applyOp dur levelDur level_id
          st _ hids
        cases hok
        exact hcore.symm ▸ rfl
      -- the i-th entry of lr
      have hinput : task_input data cr (level_tasks.get ⟨i, hi⟩) = some v := by
        rw [task_input, hdeps]
        exact hv
      have hkeys : (lr.map Prod.fst).Nodup := by
        rw [hlr, List.map_map]
        have hcomp : ((Prod.fst : String × Value → String) ∘
            (fun a : Value × Task × Nat =>
              (a.2.1.task_id, (worker_execute_task applyOp a).2.1)))
            = fun a : Value × Task × Nat => a.2.1.task_id := rfl
        rw [hcomp]
        exact hids
      have henum : (i, level_tasks.get ⟨i, hi⟩) ∈ level_tasks.enum := by
        have hl : i < level_tasks.enum.length := by
          rw [List.enum_length]
          exact hi
        have hgl : level_tasks.enum.get ⟨i, hl⟩ =
            (i, level_tasks.get ⟨i, hi⟩) := by
          rw [List.get_eq_getElem, List.get_eq_getElem, List.getElem_enum]
        rw [← hgl]
        exact List.get_mem _ _ _
      apply dictLookup_of_mem_nodup lr hkeys
      rw [hlr]
      have hmm := List.mem_map_of_mem
        (fun a : Value × Task × Nat =>
          (a.2.1.task_id, (worker_execute_task applyOp a).2.1))
        (List.mem_map_of_mem
          (fun p : Nat × Task =>
            ((task_input data cr p.2).getD data, p.2, p.1)) henum)
      simp only [hinput, Option.getD_some] at hmm
      exact hmm

/-! ### Characterization of the level grouping and the level loop -/

theorem levelStep_keys_rep (acc : List (Nat × List Task)) (t : Task) :
    (acc.map (fun p => if p.1 = t.level then (p.1, p.2 ++ [t]) else p)).map
        Prod.fst = acc.map Prod.fst := by
  rw [List.map_map]
  apply List.map_congr_left
  intro p _
  show Prod.fst (if p.1 = t.level then (p.1, p.2 ++ [t]) else p) = p.1
  rw [apply_ite Prod.fst]
  simp

theorem replace_flatten_perm (t : Task) :
    ∀ acc : List (Nat × List Task),
      (acc.map Prod.fst).Nodup →
      (∃ p ∈ acc, p.1 = t.level) →
      (((acc.map (fun p => if p.1 = t.level then (p.1, p.2 ++ [t]) else p)).map
          Prod.snd).flatten).Perm (((acc.map Prod.snd).flatten) ++ [t]) := by
  intro acc
  induction acc with
  | nil =>
      intro _ hex
      obtain ⟨p, hp, _⟩ := hex
      cases hp
  | cons q qs ih =>
      intro hnd hex
      rw [List.map_cons, List.nodup_cons] at hnd
      by_cases hq : q.1 = t.level
      · have hrest : qs.map
            (fun p => if p.1 = t.level then (p.1, p.2 ++ [t]) else p) = qs := by
          have hid : ∀ p ∈ qs,
              (if p.1 = t.level then (p.1, p.2 ++ [t]) else p) = p := by
            intro p hp
            have hne : ¬ (p.1 = t.level) := by
              intro he
              apply hnd.1
              rw [hq, ← he]
              exact List.mem_map_of_mem _ hp
            rw [if_neg hne]
          rw [List.map_congr_left hid, List.map_id']
        rw [List.map_cons, if_pos hq, hrest, List.map_cons,
          List.flatten_cons, List.map_cons, List.flatten_cons]
        rw [show (q.2 ++ [t]) ++ (qs.map Prod.snd).flatten =
          q.2 ++ ([t] ++ (qs.map Prod.snd).flatten) by rw [List.append_assoc]]
        rw [show (q.2 ++ (qs.map Prod.snd).flatten) ++ [t] =
          q.2 ++ ((qs.map Prod.snd).flatten ++ [t]) by rw [List.append_assoc]]
        exact List.Perm.append_left q.2 List.perm_append_comm
      · have hex' : ∃ p ∈ qs, p.1 = t.level := by
          obtain ⟨p, hp, hpe⟩ := hex
          rcases List.mem_cons.mp hp with hp | hp
          · exact absurd (hp ▸ hpe) hq
          · exact ⟨p, hp, hpe⟩
        rw [List.map_cons, if_neg hq, List.map_cons, List.flatten_cons,
          List.map_cons, List.flatten_cons]
        rw [show (q.2 ++ (qs.map Prod.snd).flatten) ++ [t] =
          q.2 ++ ((qs.map Prod.snd).flatten ++ [t]) by rw [List.append_assoc]]
        exact List.Perm.append_left q.2 (ih hnd.2 hex')

theorem groupByLevel_go_char :
    ∀ (tasks : List Task) (acc : List (Nat × List Task)) (pref : List Task),
      (acc.map Prod.fst).Nodup →
      (∀ p ∈ acc, p.2 = pref.filter (fun u => u.level = p.1)) →
      (∀ u ∈ pref, u.level ∈ acc.map Prod.fst) →
      ((tasks.foldl levelStep acc).map Prod.fst).Nodup ∧
      (∀ p ∈ tasks.foldl levelStep acc,
        p.2 = (pref ++ tasks).filter (fun u => u.level = p.1)) ∧
      (∀ u ∈ pref ++ tasks,
        u.level ∈ (tasks.foldl levelStep acc).map Prod.fst) ∧
      (((tasks.foldl levelStep acc).map Prod.snd).flatten).Perm
        (((acc.map Prod.snd).flatten) ++ tasks) := by
  intro tasks
  induction tasks with
  | nil =>
      intro acc pref hnd hbuck hcover
      refine ⟨hnd, ?_, ?_, by simp⟩
      · intro p hp
        rw [List.append_nil]
        exact hbuck p hp
      · intro u hu
        rw [List.append_nil] at hu
        exact hcover u hu
  | cons t ts ih =>
      intro acc pref hnd hbuck hcover
      rw [List.foldl_cons]
      by_cases hf : ((acc.find? (fun p => p.1 = t.level)).isSome : Prop)
      · -- existing bucket: append t to it
        have hstep : levelStep acc t =
            acc.map (fun p => if p.1 = t.level then (p.1, p.2 ++ [t]) else p) := by
          rw [levelStep, if_pos hf]
        have hex : ∃ p ∈ acc, p.1 = t.level := by
          have := List.find?_isSome.mp hf
          obtain ⟨p, hp, hpe⟩ := this
          exact ⟨p, hp, by simpa using hpe⟩
        have hnd' : ((levelStep acc t).map Prod.fst).Nodup := by
          rw [hstep, levelStep_keys_rep]
          exact hnd
        have hbuck' : ∀ p ∈ levelStep acc t,
            p.2 = (pref ++ [t]).filter (fun u => u.level = p.1) := by
          rw [hstep]
          intro p' hp'
          obtain ⟨q, hq, rfl⟩ := List.mem_map.mp hp'
          rw [List.filter_append]
          by_cases hqe : q.1 = t.level
          · rw [if_pos hqe]
            have hdec : (decide (t.level = q.1)) = true := by simp [hqe]
            have hft : List.filter (fun u => decide (u.level = q.1)) [t]
                = [t] := by
              simp [List.filter, hdec]
            rw [hft, ← hbuck q hq]
          · rw [if_neg hqe]
            have hdec : (decide (t.level = q.1)) = false := by
              simp only [decide_eq_false_iff_not]
              intro he
              exact hqe he.symm
            have hft : List.filter (fun u => decide (u.level = q.1)) [t]
                = [] := by
              simp [List.filter, hdec]
            rw [hft, List.append_nil, ← hbuck q hq]
        have hcover' : ∀ u ∈ pref ++ [t],
            u.level ∈ (levelStep acc t).map Prod.fst := by
          rw [hstep, levelStep_keys_rep]
          intro u hu
          rcases List.mem_append.mp hu with hu | hu
          · exact hcover u hu
          · obtain ⟨p, hp, hpe⟩ := hex
            have hut : u = t := by simpa using hu
            rw [hut, ← hpe]
            exact List.mem_map_of_mem _ hp
        obtain ⟨c1, c2, c3, c4⟩ := ih (levelStep acc t) (pref ++ [t])
          hnd' hbuck' hcover'
        refine ⟨c1, ?_, ?_, ?_⟩
        · intro p hp
          rw [show pref ++ t :: ts = (pref ++ [t]) ++ ts by simp]
          exact c2 p hp
        · intro u hu
          apply c3
          rw [show (pref ++ [t]) ++ ts = pref ++ t :: ts by simp]
          exact hu
        · refine c4.trans ?_
          have hperm : (((levelStep acc t).map Prod.snd).flatten).Perm
              (((acc.map Prod.snd).flatten) ++ [t]) := by
            rw [hstep]
            exact replace_flatten_perm t acc hnd hex
          refine (hperm.append_right ts).trans ?_
          rw [List.append_assoc]
          exact List.Perm.of_eq (by simp)
      · -- new bucket at the end
        have hstep : levelStep acc t = acc ++ [(t.level, [t])] := by
          rw [levelStep, if_neg hf]
        have hnone : ∀ p ∈ acc, p.1 ≠ t.level := by
          have hn : acc.find? (fun p => decide (p.1 = t.level)) = none :=
            Option.not_isSome_iff_eq_none.mp hf
          intro p hp
          have := List.find?_eq_none.mp hn p hp
          simpa using this
        have hnd' : ((levelStep acc t).map Prod.fst).Nodup := by
          rw [hstep, List.map_append, List.nodup_append]
          refine ⟨hnd, by simp, ?_⟩
          intro a ha hb
          simp only [List.map_cons, List.map_nil, List.mem_cons,
            List.not_mem_nil, or_false] at hb
          obtain ⟨p, hp, hpe⟩ := List.mem_map.mp ha
          exact hnone p hp (by rw [hpe, hb])
        have hbuck' : ∀ p ∈ levelStep acc t,
            p.2 = (pref ++ [t]).filter (fun u => u.level = p.1) := by
          rw [hstep]
          intro p hp
          rcases List.mem_append.mp hp with hp | hp
          · rw [List.filter_append]
            have hdec : (decide (t.level = p.1)) = false := by
              simp only [decide_eq_false_iff_not]
              intro he
              exact hnone p hp he.symm
            have hft : List.filter (fun u => decide (u.level = p.1)) [t]
                = [] := by
              simp [List.filter, hdec]
            rw [hft, List.append_nil, ← hbuck p hp]
          · have hpe : p = (t.level, [t]) := by simpa using hp
            rw [hpe, List.filter_append]
            have hpref : List.filter (fun u => decide (u.level = t.level))
                pref = [] := by
              rw [List.filter_eq_nil_iff]
              intro u hu
              simp only [decide_eq_true_eq]
              intro he
              obtain ⟨p', hp', hpe'⟩ := List.mem_map.mp (hcover u hu)
              exact hnone p' hp' (by rw [hpe', he])
            have hft : List.filter (fun u => decide (u.level = t.level)) [t]
                = [t] := by
              simp [List.filter]
            rw [hpref, hft, List.nil_append]
        have hcover' : ∀ u ∈ pref ++ [t],
            u.level ∈ (levelStep acc t).map Prod.fst := by
          rw [hstep, List.map_append]
          intro u hu
          rcases List.mem_append.mp hu with hu | hu
          · exact List.mem_append.mpr (Or.inl (hcover u hu))
          · have hut : u = t := by simpa using hu
            apply List.mem_append.mpr
            right
            rw [hut]
            simp
        obtain ⟨c1, c2, c3, c4⟩ := ih (levelStep acc t) (pref ++ [t])
          hnd' hbuck' hcover'
        refine ⟨c1, ?_, ?_, ?_⟩
        · intro p hp
          rw [show pref ++ t :: ts = (pref ++ [t]) ++ ts by simp]
          exact c2 p hp
        · intro u hu
          apply c3
          rw [show (pref ++ [t]) ++ ts = pref ++ t :: ts by simp]
          exact hu
        · refine c4.trans ?_
          have heq : (((levelStep acc t).map Prod.snd).flatten)
              = ((acc.map Prod.snd).flatten) ++ [t] := by
            rw [hstep]
            simp
          rw [heq, List.append_assoc]
          exact List.Perm.of_eq (by simp)

theorem groupByLevel_keys_nodup (tasks : List Task) :
    ((groupByLevel tasks).map Prod.fst).Nodup :=
  (groupByLevel_go_char tasks [] [] (by simp) (by simp) (by simp)).1

theorem groupByLevel_buckets (tasks : List Task) :
    ∀ p ∈ groupByLevel tasks,
      p.2 = tasks.filter (fun u => u.level = p.1) := by
  have h := (groupByLevel_go_char tasks [] [] (by simp) (by simp) (by simp)).2.1
  intro p hp
  have := h p hp
  rwa [List.nil_append] at this

theorem groupByLevel_cover (tasks : List Task) :
    ∀ u ∈ tasks, u.level ∈ (groupByLevel tasks).map Prod.fst := by
  have h :=
    (groupByLevel_go_char tasks [] [] (by simp) (by simp) (by simp)).2.2.1
  intro u hu
  exact h u (by rwa [List.nil_append])

theorem groupByLevel_flatten_perm (tasks : List Task) :
    (((groupByLevel tasks).map Prod.snd).flatten).Perm tasks := by
  have h :=
    (groupByLevel_go_char tasks [] [] (by simp) (by simp) (by simp)).2.2.2
  simpa using h

theorem levelBucket_mem (levels : List (Nat × List Task))
    (hnd : (levels.map Prod.fst).Nodup) :
    ∀ p ∈ levels, levelBucket levels p.1 = p.2 := by
  induction levels with
  | nil =>
      intro p hp
      cases hp
  | cons q qs ih =>
      intro p hp
      rw [List.map_cons, List.nodup_cons] at hnd
      rcases List.mem_cons.mp hp with hp | hp
      · subst hp
        simp [levelBucket, List.find?]
      · have hne : q.1 ≠ p.1 := by
          intro he
          exact hnd.1 (he ▸ List.mem_map_of_mem _ hp)
        simp only [levelBucket, List.find?,
          show (decide (q.1 = p.1)) = false by simp [hne]]
        exact ih hnd.2 p hp

theorem levelBucket_eq_filter (tasks : List Task) (lv : Nat)
    (hlv : lv ∈ (groupByLevel tasks).map Prod.fst) :
    levelBucket (groupByLevel tasks) lv =
      tasks.filter (fun u => u.level = lv) := by
  obtain ⟨p, hp, hpe⟩ := List.mem_map.mp hlv
  rw [← hpe, levelBucket_mem (groupByLevel tasks)
    (groupByLevel_keys_nodup tasks) p hp, groupByLevel_buckets tasks p hp]

theorem flatMap_levelBucket_perm (tasks : List Task) :
    ((((groupByLevel tasks).map Prod.fst).flatMap
      (levelBucket (groupByLevel tasks)))).Perm tasks := by
  have heq : ((groupByLevel tasks).map Prod.fst).map
      (levelBucket (groupByLevel tasks)) = (groupByLevel tasks).map Prod.snd := by
    rw [List.map_map]
    apply List.map_congr_left
    intro p hp
    exact levelBucket_mem (groupByLevel tasks)
      (groupByLevel_keys_nodup tasks) p hp
  rw [List.flatMap_def, heq]
  exact groupByLevel_flatten_perm tasks

theorem insertSorted_perm (x : Nat) :
    ∀ l : List Nat, (insertSorted x l).Perm (x :: l) := by
  intro l
  induction l with
  | nil => exact List.Perm.refl _
  | cons y ys ih =>
      rw [insertSorted]
      by_cases h : x ≤ y
      · rw [if_pos h]
      · rw [if_neg h]
        exact (List.Perm.cons y ih).trans (List.Perm.swap x y ys)

theorem sortKeys_perm (l : List Nat) : (sortKeys l).Perm l := by
  induction l with
  | nil => exact List.Perm.refl _
  | cons a l ih =>
      rw [sortKeys, List.foldr_cons]
      exact (insertSorted_perm a _).trans (List.Perm.cons a ih)

theorem enum_map_snd_comp {β : Type} (l : List Task) (f : Task → β) :
    l.enum.map (fun p => f p.2) = l.map f := by
  rw [show (fun p : Nat × Task => f p.2) = f ∘ Prod.snd from rfl,
    ← List.map_map, List.enum_map_snd]

/-- The state evolution of the level loop of `execute_plan`: on a successful
run, each of the executor's three dicts grows by exactly this run's entries in
execution order (provided the new keys are fresh, which the disjointness
hypotheses express). -/
theorem runLevels_ok_state (applyOp : Task → Value → Except String Value)
    (dur : String → Rat) (levelDur : Nat → Rat) (data : Value)
    (levels : List (Nat × List Task)) :
    ∀ (keys : List Nat) (cr : List (String × Value)) (st : ExecState)
      (out : List (String × Value) × ExecState),
      runLevels applyOp dur levelDur data levels keys cr st = .ok out →
      ((st.execution_times.map Prod.fst ++
          keys.flatMap (fun lv =>
            (levelBucket levels lv).map (fun t => t.task_id))).Nodup →
        out.2.execution_times = st.execution_times ++
          (keys.flatMap (fun lv => levelBucket levels lv)).map
            (fun t => (t.task_id, dur t.task_id))) ∧
      ((st.task_process_map.map Prod.fst ++
          keys.flatMap (fun lv =>
            (levelBucket levels lv).map (fun t => t.task_id))).Nodup →
        out.2.task_process_map.map Prod.fst =
          st.task_process_map.map Prod.fst ++
            keys.flatMap (fun lv =>
              (levelBucket levels lv).map (fun t => t.task_id))) ∧
      ((st.level_times.map Prod.fst ++
          keys.map (fun lv => "Level_" ++ toString lv)).Nodup →
        out.2.level_times = st.level_times ++
          keys.map (fun lv => ("Level_" ++ toString lv, levelDur lv))) := by
  intro keys
  induction keys with
  | nil =>
      intro cr st out hok
      cases hok
      refine ⟨fun _ => by simp, fun _ => by simp, fun _ => by simp⟩
  | cons lv rest ih =>
      intro cr st out hok
      simp only [runLevels] at hok
      cases hel : execute_level applyOp dur levelDur data
          (levelBucket levels lv) cr lv st with
      | error e =>
          rw [hel] at hok
          cases hok
      | ok pr =>
          obtain ⟨lr, st1⟩ := pr
          rw [hel] at hok
          -- dissect the successful level
          unfold execute_level at hel
          cases hci : collectInputs data cr (levelBucket levels lv).enum with
          | none =>
              rw [hci] at hel
              cases hel
          | some A =>
              rw [hci] at hel
              have hA := collectInputs_some_inv data cr
                (levelBucket levels lv).enum A hci
              have hpair : (lr, st1) =
                  execute_level_core applyOp dur levelDur lv st A := by
                cases hel
                rfl
              have hst1 : st1 =
                  (execute_level_core applyOp dur levelDur lv st A).2 := by
                rw [← hpair]
              have hAids : A.map (fun a => a.2.1.task_id) =
                  (levelBucket levels lv).map (fun t => t.task_id) := by
                rw [hA, List.map_map]
                exact enum_map_snd_comp (levelBucket levels lv)
                  (fun t => t.task_id)
              have hih := ih (dictUpdate cr lr) st1 out hok
              refine ⟨?_, ?_, ?_⟩
              · -- execution_times
                intro hndE
                have hndE' : ((st.execution_times.map Prod.fst ++
                    (levelBucket levels lv).map (fun t => t.task_id)) ++
                    rest.flatMap (fun l2 =>
                      (levelBucket levels l2).map (fun t => t.task_id))).Nodup := by
                  rw [List.flatMap_cons] at hndE
                  rwa [← List.append_assoc] at hndE
                have hthis : ((st.execution_times.map Prod.fst ++
                    (levelBucket levels lv).map (fun t => t.task_id))).Nodup :=
                  (List.sublist_append_left _ _).nodup hndE'
                have hetA : st1.execution_times = st.execution_times ++
                    (levelBucket levels lv).map
                      (fun t => (t.task_id, dur t.task_id)) := by
                  rw [hst1, execute_level_core_et applyOp dur levelDur lv st A
                    (by rw [hAids]; exact hthis)]
                  congr 1
                  rw [hA, List.map_map]
                  exact enum_map_snd_comp (levelBucket levels lv)
                    (fun t => (t.task_id, dur t.task_id))
                have hkeys1 : st1.execution_times.map Prod.fst =
                    st.execution_times.map Prod.fst ++
                      (levelBucket levels lv).map (fun t => t.task_id) := by
                  rw [hetA, List.map_append, List.map_map]
                  rfl
                have hrec := hih.1 (by
                  rw [hkeys1]
                  exact hndE')
                rw [hrec, hetA, List.flatMap_cons, List.map_append,
                  List.append_assoc]
              · -- task_process_map keys
                intro hndP
                have hndP' : ((st.task_process_map.map Prod.fst ++
                    (levelBucket levels lv).map (fun t => t.task_id)) ++
                    rest.flatMap (fun l2 =>
                      (levelBucket levels l2).map (fun t => t.task_id))).Nodup := by
                  rw [List.flatMap_cons] at hndP
                  rwa [← List.append_assoc] at hndP
                have hthis : ((st.task_process_map.map Prod.fst ++
                    (levelBucket levels lv).map (fun t => t.task_id))).Nodup :=
                  (List.sublist_append_left _ _).nodup hndP'
                have htpmA : st1.task_process_map = st.task_process_map ++
                    A.map (fun a => (a.2.1.task_id, a.2.2)) := by
                  rw [hst1]
                  exact execute_level_core_tpm applyOp dur levelDur lv st A
                    (by rw [hAids]; exact hthis)
                have hkeys1 : st1.task_process_map.map Prod.fst =
                    st.task_process_map.map Prod.fst ++
                      (levelBucket levels lv).map (fun t => t.task_id) := by
                  rw [htpmA, List.map_append, List.map_map, ← hAids]
                  rfl
                have hrec := hih.2.1 (by
                  rw [hkeys1]
                  exact hndP')
                rw [hrec, hkeys1, List.flatMap_cons, List.append_assoc]
              · -- level_times
                intro hndL
                have hfresh : ∀ p ∈ st.level_times,
                    p.1 ≠ "Level_" ++ toString lv := by
                  intro p hp he
                  rw [List.map_cons, List.nodup_append] at hndL
                  exact hndL.2.2 (by rw [← he]; exact List.mem_map_of_mem _ hp)
                    (List.mem_cons_self _ _)
                have hltA : st1.level_times = st.level_times ++
                    [("Level_" ++ toString lv, levelDur lv)] := by
                  rw [hst1, execute_level_core_lt applyOp dur levelDur lv st A,
                    dictInsert_fresh _ _ _ hfresh]
                have hkeys1 : st1.level_times.map Prod.fst =
                    st.level_times.map Prod.fst ++ ["Level_" ++ toString lv] := by
                  rw [hltA, List.map_append]
                  rfl
                have hrec := hih.2.2 (by
                  rw [hkeys1, List.append_assoc]
                  rw [List.map_cons] at hndL
                  simpa using hndL)
                rw [hrec, hltA, List.append_assoc, List.map_cons]
                rfl

/-- Witness for the amended C1: T3 receives T1's output, table `[1]`, even
though it also depends on T2. -/
theorem execute_level_uses_first_dependency_witness :
    execute_level (fun _ v => .ok v) (fun _ => 0) (fun _ => 0) (.table [9])
        [⟨"T3", "group", ["T1", "T2"], 1⟩]
        [("T1", .table [1]), ("T2", .table [2])] 1 initState
      = .ok ([("T3", .table [1])],
          ⟨[("T3", 0)], [("T3", 0)], [("Level_1", 0)]⟩) ∧
    dictLookup [("T3", Value.table [1])] "T3" =
      some ((worker_execute_task (fun _ v => .ok v)
        (.table [1], ⟨"T3", "group", ["T1", "T2"], 1⟩, 0)).2.1) :=
  ⟨rfl,
    execute_level_uses_first_dependency (fun _ v => .ok v) (fun _ => 0)
      (fun _ => 0) (.table [9]) [⟨"T3", "group", ["T1", "T2"], 1⟩]
      [("T1", .table [1]), ("T2", .table [2])] 1 initState
      [("T3", .table [1])] ⟨[("T3", 0)], [("T3", 0)], [("Level_1", 0)]⟩
      rfl (by decide) 0 (by decide) "T1" ["T2"] (.table [1]) rfl rfl⟩

/-- Dissection of a successful `execute_plan` call into its stages. -/
theorem execute_plan_ok_elim (applyOp : Task → Value → Except String Value)
    (dur : String → Rat) (levelDur : Nat → Rat) (totalDur : Rat)
    (data : Value) (num : Nat) (st : ExecState) (tasks : List Task)
    (r : Report) (st2 : ExecState)
    (hok : execute_plan applyOp dur levelDur totalDur data num st tasks
      = .ok (r, st2)) :
    ∃ cr fl fr,
      runLevels applyOp dur levelDur data (groupByLevel tasks)
        (sortKeys ((groupByLevel tasks).map Prod.fst)) [] st = .ok (cr, st2) ∧
      ((groupByLevel tasks).map Prod.fst).max? = some fl ∧
      collectFinal cr (levelBucket (groupByLevel tasks) fl) = some fr ∧
      r = { final_result :=
              match fr with
              | [p] => FinalResult.single p.2
              | _ => FinalResult.multi fr,
            final_results := fr,
            all_results := cr,
            execution_times := st2.execution_times,
            level_times := st2.level_times,
            task_process_map := st2.task_process_map,
            total_execution_time := totalDur,
            num_processes_used := num,
            total_tasks := tasks.length } := by
  unfold execute_plan at hok
  dsimp only at hok
  cases hrun : runLevels applyOp dur levelDur data (groupByLevel tasks)
      (sortKeys ((groupByLevel tasks).map Prod.fst)) [] st with
  | error e =>
      rw [hrun] at hok
      cases hok
  | ok pr =>
      obtain ⟨cr, st1⟩ := pr
      rw [hrun] at hok
      dsimp only at hok
      cases hmax : ((groupByLevel tasks).map Prod.fst).max? with
      | none =>
          rw [hmax] at hok
          cases hok
      | some fl =>
          rw [hmax] at hok
          dsimp only at hok
          cases hcf : collectFinal cr (levelBucket (groupByLevel tasks) fl) with
          | none =>
              rw [hcf] at hok
              cases hok
          | some fr =>
              rw [hcf] at hok
              dsimp only at hok
              cases hok
              exact ⟨cr, fl, fr, rfl, rfl, hcf, rfl⟩

/-- C7: the report's final outputs are exactly the TaskResults of the last
level — the level with the maximal level id — each read back from the full
result store; and the primary result is the single value when that level has
exactly one task, the whole map otherwise. -/
theorem execute_plan_final_outputs
    (applyOp : Task → Value → Except String Value) (dur : String → Rat)
    (levelDur : Nat → Rat) (totalDur : Rat) (data : Value) (num : Nat)
    (st : ExecState) (tasks : List Task) (r : Report) (st2 : ExecState)
    (hok : execute_plan applyOp dur levelDur totalDur data num st tasks
      = .ok (r, st2)) :
    ∃ final_level,
      ((groupByLevel tasks).map Prod.fst).max? = some final_level ∧
      r.final_results.map Prod.fst =
        (tasks.filter (fun t => t.level = final_level)).map
          (fun t => t.task_id) ∧
      (∀ p ∈ r.final_results, dictLookup r.all_results p.1 = some p.2) ∧
      r.final_result = (match r.final_results with
        | [p] => FinalResult.single p.2
        | _ => FinalResult.multi r.final_results) := by
  obtain ⟨cr, fl, fr, hrun, hmax, hcf, hr⟩ :=
    execute_plan_ok_elim applyOp dur levelDur totalDur data num st tasks r
      st2 hok
  subst hr
  obtain ⟨hkeys, hvals⟩ := collectFinal_some_inv cr _ fr hcf
  have hflmem : fl ∈ (groupByLevel tasks).map Prod.fst :=
    List.max?_mem max_choice hmax
  refine ⟨fl, hmax, ?_, hvals, rfl⟩
  dsimp only
  rw [hkeys, levelBucket_eq_filter tasks fl hflmem]

/-- Witness for C7 on a concrete two-level plan whose last level holds one
task. -/
theorem execute_plan_final_outputs_witness :
    ∃ (r : Report) (st2 : ExecState),
      execute_plan (fun _ v => .ok v) (fun _ => 1) (fun _ => 1) 1
        (.table [3]) 1 initState
        [⟨"T1", "fetch", [], 0⟩, ⟨"T2", "fetch", ["T1"], 1⟩] = .ok (r, st2) ∧
      ∃ final_level,
        ((groupByLevel [⟨"T1", "fetch", [], 0⟩,
          ⟨"T2", "fetch", ["T1"], 1⟩]).map Prod.fst).max? = some final_level ∧
        r.final_results.map Prod.fst =
          (([⟨"T1", "fetch", [], 0⟩, ⟨"T2", "fetch", ["T1"], 1⟩] :
              List Task).filter
            (fun t => t.level = final_level)).map (fun t => t.task_id) ∧
        (∀ p ∈ r.final_results, dictLookup r.all_results p.1 = some p.2) ∧
        r.final_result = (match r.final_results with
          | [p] => FinalResult.single p.2
          | _ => FinalResult.multi r.final_results) :=
  ⟨_, _, rfl,
    execute_plan_final_outputs (fun _ v => .ok v) (fun _ => 1) (fun _ => 1) 1
      (.table [3]) 1 initState
      [⟨"T1", "fetch", [], 0⟩, ⟨"T2", "fetch", ["T1"], 1⟩] _ _ rfl⟩

theorem sorted_flatMap_bucket_perm (tasks : List Task) :
    ((sortKeys ((groupByLevel tasks).map Prod.fst)).flatMap
      (levelBucket (groupByLevel tasks))).Perm tasks := by
  refine List.Perm.trans ?_ (flatMap_levelBucket_perm tasks)
  rw [List.flatMap_def, List.flatMap_def]
  exact ((sortKeys_perm _).map _).join

theorem sorted_flat_ids_perm (tasks : List Task) :
    ((sortKeys ((groupByLevel tasks).map Prod.fst)).flatMap
      (fun lv => (levelBucket (groupByLevel tasks) lv).map
        (fun t => t.task_id))).Perm (tasks.map (fun t => t.task_id)) := by
  have h := (sorted_flatMap_bucket_perm tasks).map (fun t => t.task_id)
  rwa [List.map_flatMap] at h

/-- C8 counterexample: a run with one task of duration 2 and total wall time
1 on a pool of size 1 yields speedup 2, and the report's efficiency figure is
200 — the percentage `(speedup / poolSize) * 100` computed by
`print_performance_report` — not `speedup / poolSize = 2` as the claim
states. -/
theorem efficiency_percentage_counterexample :
    execute_plan (fun _ v => .ok v) (fun _ => 2) (fun _ => 1) 1 (.table [])
        1 initState [⟨"T1", "fetch", [], 0⟩]
      = .ok
        ({ final_result := FinalResult.single (.table []),
           final_results := [("T1", .table [])],
           all_results := [("T1", .table [])],
           execution_times := [("T1", 2)],
           level_times := [("Level_0", 1)],
           task_process_map := [("T1", 0)],
           total_execution_time := 1,
           num_processes_used := 1,
           total_tasks := 1 }, ⟨[("T1", 2)], [("T1", 0)], [("Level_0", 1)]⟩) ∧
    efficiency
      { final_result := FinalResult.single (.table []),
        final_results := [("T1", .table [])],
        all_results := [("T1", .table [])],
        execution_times := [("T1", 2)],
        level_times := [("Level_0", 1)],
        task_process_map := [("T1", 0)],
        total_execution_time := 1,
        num_processes_used := 1,
        total_tasks := 1 } = 200 ∧
    speedup
      { final_result := FinalResult.single (.table []),
        final_results := [("T1", .table [])],
        all_results := [("T1", .table [])],
        execution_times := [("T1", 2)],
        level_times := [("Level_0", 1)],
        task_process_map := [("T1", 0)],
        total_execution_time := 1,
        num_processes_used := 1,
        total_tasks := 1 } / ((1 : Nat) : Rat) = 2 ∧
    ¬ ((200 : Rat) = 2) := by
  refine ⟨rfl, ?_, ?_, by norm_num⟩
  · norm_num [efficiency, speedup, sequential_time]
  · norm_num [speedup, sequential_time]

/-- C8 amended: for every successful run on a fresh executor, the report's
metrics satisfy `sequentialTime = sum of this run's per-task durations`,
`speedup = sequentialTime / totalDuration`, and
`efficiency = (speedup / poolSize) * 100` — the efficiency figure is the
percentage, one hundred times the claim's `speedup / poolSize`. -/
theorem print_performance_report_metrics
    (applyOp : Task → Value → Except String Value) (dur : String → Rat)
    (levelDur : Nat → Rat) (totalDur : Rat) (data : Value) (num : Nat)
    (tasks : List Task) (r : Report) (st2 : ExecState)
    (hnd : (tasks.map (fun t => t.task_id)).Nodup)
    (hok : execute_plan applyOp dur levelDur totalDur data num initState tasks
      = .ok (r, st2)) :
    sequential_time r = (tasks.map (fun t => dur t.task_id)).sum ∧
    speedup r = sequential_time r / r.total_execution_time ∧
    efficiency r = speedup r / (r.num_processes_used : Rat) * 100 := by
  obtain ⟨cr, fl, fr, hrun, hmax, hcf, hr⟩ :=
    execute_plan_ok_elim applyOp dur levelDur totalDur data num initState
      tasks r st2 hok
  have hidperm := sorted_flat_ids_perm tasks
  have hndflat : ((sortKeys ((groupByLevel tasks).map Prod.fst)).flatMap
      (fun lv => (levelBucket (groupByLevel tasks) lv).map
        (fun t => t.task_id))).Nodup := hidperm.nodup_iff.mpr hnd
  have hchar := runLevels_ok_state applyOp dur levelDur data
    (groupByLevel tasks) (sortKeys ((groupByLevel tasks).map Prod.fst)) []
    initState (cr, st2) hrun
  have het := hchar.1 (by simpa [initState] using hndflat)
  refine ⟨?_, rfl, rfl⟩
  subst hr
  dsimp only [sequential_time]
  dsimp only at het
  rw [het]
  simp only [initState, List.nil_append, List.map_map]
  have hsum : ((sortKeys ((groupByLevel tasks).map Prod.fst)).flatMap
      (fun lv => levelBucket (groupByLevel tasks) lv)).map
        ((fun q : String × Rat => q.2) ∘
          (fun t : Task => (t.task_id, dur t.task_id)))
      = ((sortKeys ((groupByLevel tasks).map Prod.fst)).flatMap
        (fun lv => levelBucket (groupByLevel tasks) lv)).map
          (fun t : Task => dur t.task_id) := rfl
  rw [show (Prod.snd : String × Rat → Rat) = fun q : String × Rat => q.2
    from rfl, hsum]
  exact ((sorted_flatMap_bucket_perm tasks).map
    (fun t : Task => dur t.task_id)).sum_eq

/-- Witness for the amended C8 on a concrete one-task run. -/
theorem print_performance_report_metrics_witness :
    ([⟨"T1", "fetch", [], 0⟩].map (fun t : Task => t.task_id)).Nodup ∧
    ∃ (r : Report) (st2 : ExecState),
      execute_plan (fun _ v => .ok v) (fun _ => 2) (fun _ => 1) 1 (.table [])
        1 initState [⟨"T1", "fetch", [], 0⟩] = .ok (r, st2) ∧
      (sequential_time r =
        ([⟨"T1", "fetch", [], 0⟩].map (fun t : Task => (fun _ => (2 : Rat))
          t.task_id)).sum ∧
      speedup r = sequential_time r / r.total_execution_time ∧
      efficiency r = speedup r / (r.num_processes_used : Rat) * 100) :=
  ⟨by decide, _, _, rfl,
    print_performance_report_metrics (fun _ v => .ok v) (fun _ => 2)
      (fun _ => 1) 1 (.table []) 1 [⟨"T1", "fetch", [], 0⟩] _ _ (by decide)
      rfl⟩

/-- C9 counterexample: running `execute_plan` twice on the same executor
(`T1` first, then `T2`) leaves `T1`'s timing and slot entries inside the
second call's report, although the second call's only task is `T2`: the
instance dicts are never cleared between calls, so the report is not derived
only from the call's own tasks. -/
theorem executor_state_retention_counterexample :
    ((execute_plan (fun _ v => .ok v) (fun _ => 1) (fun _ => 1) 1 (.table [])
          1 initState [⟨"T1", "fetch", [], 0⟩]).bind (fun p =>
        execute_plan (fun _ v => .ok v) (fun _ => 1) (fun _ => 1) 1
          (.table []) 1 p.2 [⟨"T2", "fetch", [], 0⟩])).map
      (fun p => (p.1.execution_times.map Prod.fst,
        p.1.task_process_map.map Prod.fst, p.1.level_times.map Prod.fst))
      = .ok (["T1", "T2"], ["T1", "T2"], ["Level_0"]) ∧
    ("T1" : String) ∉ (["T2"] : List String) := by
  constructor
  · rfl
  · decide

/-- C9 amended: only a FRESH executor (first `execute_plan` call on the
instance, `st = initState`) produces a clean report: its per-task timing and
worker-slot dicts hold exactly this call's task ids and its per-level dict
exactly this call's levels.  The dicts persist on the instance afterwards, so
any later call's report also contains the earlier calls' entries. -/
theorem execute_plan_fresh_report_clean
    (applyOp : Task → Value → Except String Value) (dur : String → Rat)
    (levelDur : Nat → Rat) (totalDur : Rat) (data : Value) (num : Nat)
    (tasks : List Task) (r : Report) (st2 : ExecState)
    (hnd : (tasks.map (fun t => t.task_id)).Nodup)
    (hL : ((sortKeys ((groupByLevel tasks).map Prod.fst)).map
      (fun lv => "Level_" ++ toString lv)).Nodup)
    (hok : execute_plan applyOp dur levelDur totalDur data num initState tasks
      = .ok (r, st2)) :
    (r.execution_times.map Prod.fst).Perm (tasks.map (fun t => t.task_id)) ∧
    (r.task_process_map.map Prod.fst).Perm (tasks.map (fun t => t.task_id)) ∧
    r.level_times.map Prod.fst =
      (sortKeys ((groupByLevel tasks).map Prod.fst)).map
        (fun lv => "Level_" ++ toString lv) := by
  obtain ⟨cr, fl, fr, hrun, hmax, hcf, hr⟩ :=
    execute_plan_ok_elim applyOp dur levelDur totalDur data num initState
      tasks r st2 hok
  have hidperm := sorted_flat_ids_perm tasks
  have hndflat : ((sortKeys ((groupByLevel tasks).map Prod.fst)).flatMap
      (fun lv => (levelBucket (groupByLevel tasks) lv).map
        (fun t => t.task_id))).Nodup := hidperm.nodup_iff.mpr hnd
  have hchar := runLevels_ok_state applyOp dur levelDur data
    (groupByLevel tasks) (sortKeys ((groupByLevel tasks).map Prod.fst)) []
    initState (cr, st2) hrun
  have het := hchar.1 (by simpa [initState] using hndflat)
  have htpm := hchar.2.1 (by simpa [initState] using hndflat)
  have hlt := hchar.2.2 (by simpa [initState] using hL)
  subst hr
  dsimp only at het htpm hlt ⊢
  refine ⟨?_, ?_, ?_⟩
  · rw [het]
    simp only [initState, List.nil_append, List.map_map]
    have hmm : ((sortKeys ((groupByLevel tasks).map Prod.fst)).flatMap
        (fun lv => levelBucket (groupByLevel tasks) lv)).map
          ((Prod.fst : String × Rat → String) ∘
            (fun t : Task => (t.task_id, dur t.task_id)))
        = ((sortKeys ((groupByLevel tasks).map Prod.fst)).flatMap
          (fun lv => levelBucket (groupByLevel tasks) lv)).map
            (fun t : Task => t.task_id) := rfl
    rw [hmm]
    refine List.Perm.trans ?_ hidperm
    rw [List.map_flatMap]
  · rw [htpm]
    simp only [initState, List.map_nil, List.nil_append]
    exact hidperm.trans (List.Perm.refl _)
  · rw [hlt]
    simp only [initState, List.nil_append, List.map_map]
    rfl

/-- Witness for the amended C9 on a concrete two-level run. -/
theorem execute_plan_fresh_report_clean_witness :
    ([⟨"T1", "fetch", [], 0⟩, ⟨"T2", "fetch", ["T1"], 1⟩].map
      (fun t : Task => t.task_id)).Nodup ∧
    ((sortKeys ((groupByLevel [⟨"T1", "fetch", [], 0⟩,
        ⟨"T2", "fetch", ["T1"], 1⟩]).map Prod.fst)).map
      (fun lv => "Level_" ++ toString lv)).Nodup ∧
    ∃ (r : Report) (st2 : ExecState),
      execute_plan (fun _ v => .ok v) (fun _ => 1) (fun _ => 1) 1 (.table [])
        1 initState
        [⟨"T1", "fetch", [], 0⟩, ⟨"T2", "fetch", ["T1"], 1⟩] = .ok (r, st2) ∧
      ((r.execution_times.map Prod.fst).Perm
        ([⟨"T1", "fetch", [], 0⟩, ⟨"T2", "fetch", ["T1"], 1⟩].map
          (fun t : Task => t.task_id)) ∧
      (r.task_process_map.map Prod.fst).Perm
        ([⟨"T1", "fetch", [], 0⟩, ⟨"T2", "fetch", ["T1"], 1⟩].map
          (fun t : Task => t.task_id)) ∧
      r.level_times.map Prod.fst =
        (sortKeys ((groupByLevel [⟨"T1", "fetch", [], 0⟩,
          ⟨"T2", "fetch", ["T1"], 1⟩]).map Prod.fst)).map
          (fun lv => "Level_" ++ toString lv)) :=
  ⟨by decide, by decide, _, _, rfl,
    execute_plan_fresh_report_clean (fun _ v => .ok v) (fun _ => 1)
      (fun _ => 1) 1 (.table []) 1
      [⟨"T1", "fetch", [], 0⟩, ⟨"T2", "fetch", ["T1"], 1⟩] _ _ (by decide)
      (by decide) rfl⟩

end NPF
